import Mathlib

/-!
Verification of the NZXT Kraken Z series driver (Rust) against its
natural-language specification.

The Rust sources are shallowly embedded:
* byte buffers (`&[u8]`) become `List Nat` of values `< 256`;
* `u8` / `u16` values become `Nat` (with an explicit `% 2 ^ w` wherever the
  source can wrap in release mode);
* `f32` arithmetic in the interpolation routines is modelled exactly:
  `fl32` rounds a rational to the nearest binary32 value (24-bit mantissa,
  ties to even), every float operation of the source is wrapped in `fl32`,
  and `.round()` (round half away from zero) followed by the saturating
  `as u8` cast is modelled by `u8OfRound`.  `fl32` uses an unbounded
  exponent, which agrees with IEEE binary32 on every value reachable here
  (all magnitudes lie far inside the normal range, so there are no
  subnormals and no overflow);
* fallible functions return `Except KrakenError`.
-/

set_option maxHeartbeats 1000000

-- ============================================================================
-- §1  Errors (src/error.rs)
-- ============================================================================

/-- Embedding of the `KrakenError` enum (only the constructors reached by the
functions modelled here; message payloads are kept as plain strings). -/
inductive KrakenError where
  | DeviceNotFound : KrakenError
  | InvalidResponse (message : String) : KrakenError
  | InvalidDuty (channel : String) (value mn mx : Nat) : KrakenError
  | InvalidTemperature (temp : Nat) : KrakenError
  | InvalidProfile (message : String) : KrakenError
  deriving DecidableEq, Repr

/-- `Result<T>` from src/error.rs. -/
abbrev KResult (A : Type) := Except KrakenError A

deriving instance DecidableEq for Except

-- ============================================================================
-- §2  Protocol constants (src/protocol/commands.rs)
-- ============================================================================

def HID_REPORT_LENGTH : Nat := 64

def CRITICAL_TEMPERATURE : Nat := 59

def MIN_CURVE_TEMP : Nat := 20

def CURVE_POINTS : Nat := 40

def CMD_SET_SPEED_HEADER : Nat := 0x72

def RESP_SPEED_ACK : List Nat := [0xFF, 0x01]

def RESP_STATUS : List Nat := [0x75, 0x01]

def RESP_STATUS_ALT : Nat := 0x71

def RESP_SUB_OK : Nat := 0x01

-- ============================================================================
-- §3  Status parsing (src/protocol/status.rs)
-- ============================================================================

def OFFSET_TEMP_INT : Nat := 15

def OFFSET_TEMP_DEC : Nat := 16

def OFFSET_PUMP_RPM_LO : Nat := 17

def OFFSET_PUMP_RPM_HI : Nat := 18

def OFFSET_PUMP_DUTY : Nat := 19

def OFFSET_FAN_DUTY : Nat := 20

def OFFSET_FAN_RPM_LO : Nat := 23

def OFFSET_FAN_RPM_HI : Nat := 24

/-- Device status readings.  `liquid_temp_c` is the exact value of the `f32`
expression `int + dec / 10` from the source. -/
structure DeviceStatus where
  liquid_temp_c : ℚ
  pump_rpm : Nat
  pump_duty : Nat
  fan_rpm : Nat
  fan_duty : Nat
  deriving DecidableEq, Repr

/-- `DeviceStatus::parse` from src/protocol/status.rs.  Every byte access of
the source sits at an offset `≤ 24`, guarded by the initial length check, so
`List.getD` with default `0` is observationally the source's indexing. -/
def DeviceStatus.parse (buf : List Nat) : KResult DeviceStatus :=
  if buf.length < 25 then
    .error (.InvalidResponse "Buffer too short")
  else if buf.getD 0 0 = RESP_STATUS.getD 0 0 ∧ buf.getD 1 0 = RESP_STATUS.getD 1 0 then
    -- firmware-fault sentinel check (only in this branch, as in the source)
    if buf.getD OFFSET_TEMP_INT 0 = 0xFF ∧ buf.getD OFFSET_TEMP_DEC 0 = 0xFF then
      .error (.InvalidResponse "Invalid temperature reading (0xFFFF). Possible firmware fault.")
    else
      .ok { liquid_temp_c := (buf.getD OFFSET_TEMP_INT 0 : ℚ) + (buf.getD OFFSET_TEMP_DEC 0 : ℚ) / 10
            pump_rpm := (buf.getD OFFSET_PUMP_RPM_HI 0) <<< 8 ||| buf.getD OFFSET_PUMP_RPM_LO 0
            pump_duty := buf.getD OFFSET_PUMP_DUTY 0
            fan_rpm := (buf.getD OFFSET_FAN_RPM_HI 0) <<< 8 ||| buf.getD OFFSET_FAN_RPM_LO 0
            fan_duty := buf.getD OFFSET_FAN_DUTY 0 }
  else if (buf.getD 0 0 = RESP_STATUS_ALT ∨ buf.getD 0 0 = RESP_SPEED_ACK.getD 0 0)
      ∧ buf.getD 1 0 = RESP_SUB_OK then
    .ok { liquid_temp_c := (buf.getD 2 0 : ℚ) + (buf.getD 3 0 : ℚ) / 10
          pump_rpm := (buf.getD 6 0) <<< 8 ||| buf.getD 5 0
          pump_duty := buf.getD 7 0
          fan_rpm := (buf.getD 15 0) <<< 8 ||| buf.getD 14 0
          fan_duty := buf.getD 13 0 }
  else
    .error (.InvalidResponse "Unknown status header")

-- ============================================================================
-- §4  Channels and command builders (src/protocol/commands.rs)
-- ============================================================================

/-- The `Channel` enum. -/
inductive Channel where
  | Pump : Channel
  | Fan : Channel
  deriving DecidableEq, Repr

/-- `Channel::id`. -/
def Channel.id : Channel → Nat
  | .Pump => 0x01
  | .Fan => 0x02

/-- `Channel::min_duty`. -/
def Channel.min_duty : Channel → Nat
  | .Pump => 20
  | .Fan => 0

/-- `Channel::max_duty`. -/
def Channel.max_duty : Channel → Nat
  | _ => 100

/-- `format!("\x7b:?\x7d", self)` on a `Channel` (derived `Debug`). -/
def Channel.debugName : Channel → String
  | .Pump => "Pump"
  | .Fan => "Fan"

/-- `Channel::validate_duty`. -/
def Channel.validate_duty (c : Channel) (duty : Nat) : KResult Nat :=
  let mn := c.min_duty
  let mx := c.max_duty
  if duty < mn ∨ mx < duty then
    .error (.InvalidDuty c.debugName duty mn mx)
  else
    .ok duty

/-- Overwrite `buf[off .. off + src.length]` with `src`
(the semantics of Rust's `copy_from_slice` on that subrange). -/
def writeSlice (buf : List Nat) (off : Nat) (src : List Nat) : List Nat :=
  buf.take off ++ src ++ buf.drop (off + src.length)

/-- `build_speed_profile_cmd`: zero-filled 64-byte report, header byte,
channel id byte, then the 40 duties at offsets 2..41. -/
def build_speed_profile_cmd (channel : Channel) (duties : List Nat) : List Nat :=
  let buf := List.replicate HID_REPORT_LENGTH 0
  let buf := buf.set 0 CMD_SET_SPEED_HEADER
  let buf := buf.set 1 channel.id
  writeSlice buf 2 duties

/-- `build_fixed_speed_cmd`. -/
def build_fixed_speed_cmd (channel : Channel) (duty : Nat) : KResult (List Nat) := do
  let duty ← channel.validate_duty duty
  let duties := List.replicate CURVE_POINTS duty
  pure (build_speed_profile_cmd channel duties)

-- ============================================================================
-- §5  Exact model of the f32 interpolation arithmetic
-- ============================================================================

/-- Round a rational to the nearest integer, ties to even (the IEEE 754
default rounding used for every binary32 operation). -/
def rne (x : ℚ) : ℤ :=
  if x - ⌊x⌋ < 1 / 2 then ⌊x⌋
  else if 1 / 2 < x - ⌊x⌋ then ⌊x⌋ + 1
  else if ⌊x⌋ % 2 = 0 then ⌊x⌋ else ⌊x⌋ + 1

/-- Round a rational to the nearest binary32 value (24-bit mantissa, round
to nearest, ties to even), with unbounded exponent: for `q ≠ 0` the scale is
`e = ⌊log₂ |q|⌋`, and the mantissa `|q| · 2 ^ (23 - e) ∈ [2^23, 2^24]` is
rounded to an integer.  On the values reachable in this driver (magnitudes
between roughly `2 ^ (-50)` and `2 ^ 9`) this is exactly IEEE binary32:
no subnormals, no overflow. -/
def fl32 (q : ℚ) : ℚ :=
  if q = 0 then 0
  else if 0 < q then
    (rne (q * 2 ^ ((23 : ℤ) - Int.log 2 q)) : ℚ) * 2 ^ (Int.log 2 q - 23)
  else
    -((rne (-q * 2 ^ ((23 : ℤ) - Int.log 2 (-q))) : ℚ) * 2 ^ (Int.log 2 (-q) - 23))

/-- `q.round() as u8` for an f32 value `q`: round half away from zero, then
Rust's saturating float-to-int cast to `u8`.  For `q ≥ 0` round-half-away is
`⌊q + 1/2⌋`; every negative result saturates to `0`, which `Int.toNat` also
produces. -/
def u8OfRound (q : ℚ) : Nat :=
  min (⌊q + 1 / 2⌋).toNat 255

/-- The interpolation expression
`(d1 as f32 + ratio * (d2 as f32 - d1 as f32)).round() as u8` with
`ratio = (t - t1) as f32 / (t2 - t1) as f32`, each f32 operation correctly
rounded by `fl32`.  The operands `t - t1` and `t2 - t1` are exact `u8`
integers cast to f32 (no rounding), the division, subtraction,
multiplication and addition each round once. -/
def interpValue (t1 d1 t2 d2 t : Nat) : Nat :=
  u8OfRound (fl32 ((d1 : ℚ) +
    fl32 (fl32 (((t : ℚ) - (t1 : ℚ)) / ((t2 : ℚ) - (t1 : ℚ))) *
      fl32 ((d2 : ℚ) - (d1 : ℚ)))))

-- ============================================================================
-- §6  Sorting by temperature (Rust `sort_by_key`, a stable sort)
-- ============================================================================

/-- Key order used by `sort_by_key(|(temp, _)| *temp)`. -/
def keyLE (a b : Nat × Nat) : Prop := a.1 ≤ b.1

instance : DecidableRel keyLE := fun a b => Nat.decLe a.1 b.1

instance : IsTotal (Nat × Nat) keyLE := ⟨fun a b => Nat.le_total a.1 b.1⟩

instance : IsTrans (Nat × Nat) keyLE := ⟨fun _ _ _ h h' => Nat.le_trans h h'⟩

/-- Rust's `sort_by_key` is a stable sort; a stable sort is determined by the
key order, so it is modelled by insertion sort with `≤` on the key. -/
def sortByTemp (l : List (Nat × Nat)) : List (Nat × Nat) :=
  List.insertionSort keyLE l

-- ============================================================================
-- §7  interpolate_profile (src/protocol/commands.rs)
-- ============================================================================

/-- The per-temperature duty computation in the main loop of
`interpolate_profile`: exact match, else interpolate between the last point
strictly below (`rfind`) and the first point strictly above (`find`).
The `(none, none)` case is `unreachable!` in the source (profile nonempty). -/
def dutyAt (sorted : List (Nat × Nat)) (temp : Nat) : Nat :=
  match sorted.find? (fun p => p.1 == temp) with
  | some p => p.2
  | none =>
    match sorted.reverse.find? (fun p => p.1 < temp), sorted.find? (fun p => temp < p.1) with
    | some p1, some p2 => interpValue p1.1 p1.2 p2.1 p2.2 temp
    | some p, none => p.2
    | none, some p => p.2
    | none, none => 0

/-- `interpolate_profile` from src/protocol/commands.rs. -/
def interpolate_profile (profile : List (Nat × Nat)) : KResult (List Nat) :=
  if profile.isEmpty then
    .error (.InvalidProfile "Profile cannot be empty")
  else
    let sorted := sortByTemp profile
    match sorted.find? (fun p => p.1 < MIN_CURVE_TEMP ∨ CRITICAL_TEMPERATURE < p.1) with
    | some p => .error (.InvalidTemperature p.1)
    | none => .ok ((List.range CURVE_POINTS).map (fun i => dutyAt sorted (MIN_CURVE_TEMP + i)))

-- ============================================================================
-- §8  interpolate_duty (src/cooling/controller.rs)
-- ============================================================================

/-- The `for window in sorted.windows(2)` search: first adjacent pair
`(a, b)` with `a.1 ≤ temp ≤ b.1`. -/
def findWindow (temp : Nat) : List (Nat × Nat) → Option ((Nat × Nat) × (Nat × Nat))
  | a :: b :: rest =>
    if a.1 ≤ temp ∧ temp ≤ b.1 then some (a, b) else findWindow temp (b :: rest)
  | _ => none

/-- `interpolate_duty` from src/cooling/controller.rs. -/
def interpolate_duty (curve : List (Nat × Nat)) (temp : Nat) : Nat :=
  if curve.isEmpty then 50
  else
    let sorted := sortByTemp curve
    if temp ≤ (sorted.headD (0, 0)).1 then (sorted.headD (0, 0)).2
    else if (sorted.getLastD (0, 0)).1 ≤ temp then (sorted.getLastD (0, 0)).2
    else
      match findWindow temp sorted with
      | some (p1, p2) => interpValue p1.1 p1.2 p2.1 p2.2 temp
      | none => 50

-- ============================================================================
-- §9  BucketManager (src/device/bucket_manager.rs)
-- ============================================================================

def MAX_BUCKETS : Nat := 16

def HIGH_WATER_MARK : Nat := 12

/-- The FIFO bucket manager state: the `[bool; 16]` occupancy array and the
`VecDeque<u8>` queue (front = head of the list). -/
structure BucketManager where
  occupied : List Bool
  queue : List Nat
  deriving DecidableEq, Repr

/-- `BucketManager::new`. -/
def BucketManager.new : BucketManager :=
  { occupied := List.replicate MAX_BUCKETS false, queue := [] }

/-- The device as seen by `BucketManager::from_device`: whether
`query_all_buckets` succeeds, and the `(exists, mode, start_page, size_pages)`
tuple `query_bucket(i)` reports for each index.  `delete_bucket` is a pure
device side effect and does not touch the manager state. -/
structure KrakenDevice where
  queryOk : Bool
  query : Nat → Bool × Nat × Nat × Nat

/-- `KrakenZ63::query_all_buckets` (src/device/kraken.rs): queries indices
0..15 in order, collecting `(i, exists, start_page, size_pages)`. -/
def query_all_buckets (k : KrakenDevice) : List (Nat × Bool × Nat × Nat) :=
  (List.range 16).map (fun i => (i, (k.query i).1, (k.query i).2.2.1, (k.query i).2.2.2))

/-- One step of the `for (idx, exists, _, _) in buckets` loop in
`BucketManager::from_device`. -/
def fromDeviceStep (m : BucketManager) (b : Nat × Bool × Nat × Nat) : BucketManager :=
  if b.1 < MAX_BUCKETS ∧ b.2.1 = true then
    { occupied := m.occupied.set b.1 true, queue := m.queue ++ [b.1] }
  else m

/-- `BucketManager::from_device`. -/
def BucketManager.from_device (k : KrakenDevice) : BucketManager :=
  if k.queryOk then (query_all_buckets k).foldl fromDeviceStep BucketManager.new
  else BucketManager.new

/-- Iterations `i = 1..7` of the eviction loop in `acquire`: pop the front of
the queue and mark it free (the device-side `delete_bucket` has no effect on
the manager). -/
def popFreeN : Nat → List Bool × List Nat → List Bool × List Nat
  | 0, st => st
  | n + 1, (occ, q) =>
    match q with
    | [] => (occ, q)
    | oldest :: rest => popFreeN n (occ.set oldest false, rest)

/-- `BucketManager::acquire`.  Below the high-water mark the first free index
in `0..16` is taken; otherwise iteration `i = 0` of the eviction loop pops the
oldest index and immediately re-appends it (it stays occupied and is
returned), and iterations `i = 1..7` pop and free up to 7 more.  An empty
queue makes all eight iterations no-ops and falls through to `0`. -/
def BucketManager.acquire (m : BucketManager) : Nat × BucketManager :=
  match (if m.queue.length < HIGH_WATER_MARK then
          (List.range MAX_BUCKETS).find? (fun i => !(m.occupied.getD i false))
        else none) with
  | some i => (i, { occupied := m.occupied.set i true, queue := m.queue ++ [i] })
  | none =>
    match m.queue with
    | [] => (0, m)
    | oldest :: rest =>
      (oldest, { occupied := (popFreeN 7 (m.occupied, rest ++ [oldest])).1,
                 queue := (popFreeN 7 (m.occupied, rest ++ [oldest])).2 })

/-- `BucketManager::release`. -/
def BucketManager.release (m : BucketManager) (idx : Nat) : BucketManager :=
  if idx < MAX_BUCKETS then
    { occupied := m.occupied.set idx false, queue := m.queue.filter (fun x => x != idx) }
  else m

/-- `BucketManager::occupied_count`. -/
def BucketManager.occupied_count (m : BucketManager) : Nat :=
  (m.occupied.filter (fun x => x)).length

/-- `BucketManager::clear`. -/
def BucketManager.clear (_ : BucketManager) : BucketManager :=
  { occupied := List.replicate MAX_BUCKETS false, queue := [] }

/-- Run `n` sequential `acquire` calls, collecting the returned indices. -/
def acquireSeq : Nat → BucketManager → List Nat × BucketManager
  | 0, m => ([], m)
  | n + 1, m =>
    let r := m.acquire
    let rs := acquireSeq n r.2
    (r.1 :: rs.1, rs.2)

-- ============================================================================
-- §10  Memory layout planner (src/device/kraken.rs, calculate_memory_offset)
-- ============================================================================

def LCD_TOTAL_MEMORY : Nat := 24320

def U16_MOD : Nat := 65536

/-- `KrakenZ63::calculate_memory_offset`.  Buckets are
`(index, exists, start_page, size_pages)`; `u16` additions carry an explicit
`% 65536` (release-mode wrap-around).  The source always returns `Ok`, so the
`Result` wrapper is dropped. -/
def calculate_memory_offset (buckets : List (Nat × Bool × Nat × Nat))
    (target_idx needed_size : Nat) : Nat :=
  let others := buckets.filter (fun b => b.2.1 && b.1 != target_idx)
  let max_end := ((others.map (fun b => (b.2.2.1 + b.2.2.2) % U16_MOD)).max?).getD 0
  let min_start := ((others.map (fun b => b.2.2.1)).min?).getD 0xFFFF
  let cont : Nat :=
    if (max_end + needed_size) % U16_MOD ≤ LCD_TOTAL_MEMORY then max_end
    else if min_start ≠ 0xFFFF ∧ needed_size ≤ min_start then 0
    else 0
  match buckets.find? (fun b => b.1 == target_idx) with
  | some b => if b.2.1 = true ∧ needed_size ≤ b.2.2.2 then b.2.2.1 else cont
  | none => cont

-- ============================================================================
-- §11  The BucketManager invariant (claim-side, from the spec's words)
-- ============================================================================

/-- The spec's invariant: an index (of the 16 table entries) is in the
arrival-order queue iff its occupancy entry is marked, the queue holds no
index outside the table, has no duplicates, and never exceeds 16 entries.
The `occupied.length` clause records that the table is the `[bool; 16]`
array. -/
def BucketInv (m : BucketManager) : Prop :=
  m.occupied.length = MAX_BUCKETS ∧
  m.queue.Nodup ∧
  (∀ i < MAX_BUCKETS, (i ∈ m.queue ↔ m.occupied.getD i false = true)) ∧
  (∀ i ∈ m.queue, i < MAX_BUCKETS) ∧
  m.queue.length ≤ MAX_BUCKETS

instance (m : BucketManager) : Decidable (BucketInv m) := by
  unfold BucketInv; infer_instance

-- ============================================================================
-- §12  Concrete frames for the status-parsing claims
-- ============================================================================

/-- A 64-byte frame carrying the recognized alternate status header
`0x71` with sub-byte `0x01`, whose temperature bytes (both the primary
offsets 15/16 and the alternate offsets 2/3) all read `0xFF`. -/
def altSentinelFrame : List Nat :=
  ((((((List.replicate 64 0).set 0 0x71).set 1 0x01).set 2 0xFF).set 3 0xFF).set 15 0xFF).set 16 0xFF

/-- A 64-byte frame carrying the primary status header `0x75 0x01` whose
temperature bytes (offsets 15/16) both read `0xFF`. -/
def primarySentinelFrame : List Nat :=
  ((((List.replicate 64 0).set 0 0x75).set 1 0x01).set 15 0xFF).set 16 0xFF

-- ============================================================================
-- §13  General list lemmas
-- ============================================================================

theorem find?_unique {α : Type} {p : α → Bool} {a : α} :
    ∀ {xs : List α}, a ∈ xs → p a = true → (∀ b ∈ xs, p b = true → b = a) →
      xs.find? p = some a := by
  intro xs
  induction xs with
  | nil => intro h; cases h
  | cons x ys ih =>
    intro hmem hpa huniq
    by_cases hx : p x = true
    · rw [List.find?_cons_of_pos _ hx, huniq x (List.mem_cons_self x ys) hx]
    · rw [List.find?_cons_of_neg _ hx]
      rcases List.mem_cons.mp hmem with h | h
      · exact absurd (h ▸ hpa) hx
      · exact ih h hpa (fun b hb => huniq b (List.mem_cons_of_mem x hb))

theorem getD_oob {α : Type} (l : List α) (d : α) {j : Nat} (h : l.length ≤ j) :
    l.getD j d = d := by
  simp [List.getD_eq_getElem?_getD, List.getElem?_eq_none h]

theorem getD_set_self {α : Type} (l : List α) (d : α) (i : Nat) (b : α)
    (h : i < l.length) : (l.set i b).getD i d = b := by
  simp [List.getD_eq_getElem?_getD, List.getElem?_set_self, h]

theorem getD_set_ne {α : Type} (l : List α) (d : α) {i j : Nat} (b : α)
    (h : i ≠ j) : (l.set i b).getD j d = l.getD j d := by
  simp [List.getD_eq_getElem?_getD, List.getElem?_set_ne h]

theorem getD_replicate {α : Type} (d b : α) {n j : Nat} :
    (List.replicate n b).getD j d = if j < n then b else d := by
  by_cases h : j < n
  · simp [List.getD_eq_getElem?_getD, List.getElem?_replicate, h]
  · simp [List.getD_eq_getElem?_getD, List.getElem?_replicate, h]

-- ============================================================================
-- §14  Eviction-loop lemmas
-- ============================================================================

theorem popFreeN_occ_length : ∀ (n : Nat) (occ : List Bool) (q : List Nat),
    ((popFreeN n (occ, q)).1).length = occ.length := by
  intro n
  induction n with
  | zero => intro occ q; rfl
  | succ n ih =>
    intro occ q
    cases q with
    | nil => rfl
    | cons x rest => simpa [popFreeN] using ih (occ.set x false) rest

theorem popFreeN_queue : ∀ (n : Nat) (occ : List Bool) (q : List Nat),
    n ≤ q.length → (popFreeN n (occ, q)).2 = q.drop n := by
  intro n
  induction n with
  | zero => intro occ q _; rfl
  | succ n ih =>
    intro occ q h
    cases q with
    | nil => simp at h
    | cons x rest => simpa [popFreeN] using ih (occ.set x false) rest (Nat.le_of_succ_le_succ h)

theorem popFreeN_getD : ∀ (n : Nat) (occ : List Bool) (q : List Nat) (j : Nat),
    ((popFreeN n (occ, q)).1).getD j false =
      if j ∈ q.take n then false else occ.getD j false := by
  intro n
  induction n with
  | zero => intro occ q j; simp [popFreeN]
  | succ n ih =>
    intro occ q j
    cases q with
    | nil => simp [popFreeN]
    | cons x rest =>
      have hstep : popFreeN (n + 1) (occ, x :: rest) = popFreeN n (occ.set x false, rest) := rfl
      rw [hstep, ih (occ.set x false) rest j, List.take_succ_cons]
      by_cases hjr : j ∈ rest.take n
      · simp [hjr]
      · by_cases hjx : j = x
        · subst hjx
          rw [if_neg hjr, if_pos (List.mem_cons_self j (rest.take n))]
          by_cases hlen : j < occ.length
          · exact getD_set_self occ false j false hlen
          · exact getD_oob (occ.set j false) false
              (by simpa using Nat.le_of_not_lt hlen)
        · rw [if_neg hjr,
            if_neg (by intro h; rcases List.mem_cons.mp h with h | h; exact hjx h; exact hjr h)]
          exact getD_set_ne occ false false (fun h => hjx h.symm)

-- ============================================================================
-- §15  BucketInv helper lemmas
-- ============================================================================

theorem bucketInv_mem_iff {m : BucketManager} (h : BucketInv m) :
    ∀ i, i ∈ m.queue ↔ m.occupied.getD i false = true := by
  intro i
  by_cases hi : i < MAX_BUCKETS
  · exact h.2.2.1 i hi
  · constructor
    · intro hmem; exact absurd (h.2.2.2.1 i hmem) hi
    · intro hocc
      have : m.occupied.getD i false = false :=
        getD_oob _ _ (by rw [h.1]; exact Nat.le_of_not_lt hi)
      rw [this] at hocc; cases hocc

theorem bucketInv_of_parts {m : BucketManager}
    (h1 : m.occupied.length = MAX_BUCKETS) (h2 : m.queue.Nodup)
    (h3 : ∀ i, i ∈ m.queue ↔ m.occupied.getD i false = true) : BucketInv m := by
  have hmem : ∀ i ∈ m.queue, i < MAX_BUCKETS := by
    intro i hi
    by_contra hlt
    have hfalse : m.occupied.getD i false = false :=
      getD_oob _ _ (by rw [h1]; exact Nat.le_of_not_lt hlt)
    have htrue := (h3 i).mp hi
    rw [htrue] at hfalse
    exact absurd hfalse (by decide)
  refine ⟨h1, h2, fun i _ => h3 i, hmem, ?_⟩
  have hsub : m.queue ⊆ List.range MAX_BUCKETS := by
    intro i hi; exact List.mem_range.mpr (hmem i hi)
  have := (List.subperm_of_subset h2 hsub).length_le
  simpa using this

-- ============================================================================
-- §16  BucketInv preservation
-- ============================================================================

theorem acquire_eq_of_find {m : BucketManager} {i : Nat}
    (hc : m.queue.length < HIGH_WATER_MARK)
    (hfind : (List.range MAX_BUCKETS).find? (fun i => !(m.occupied.getD i false)) = some i) :
    m.acquire = (i, { occupied := m.occupied.set i true, queue := m.queue ++ [i] }) := by
  unfold BucketManager.acquire
  rw [if_pos hc, hfind]

theorem acquire_eq_evict {m : BucketManager} {oldest : Nat} {rest : List Nat}
    (hq : m.queue = oldest :: rest)
    (hc : ¬m.queue.length < HIGH_WATER_MARK) :
    m.acquire = (oldest,
      { occupied := (popFreeN 7 (m.occupied, rest ++ [oldest])).1,
        queue := (popFreeN 7 (m.occupied, rest ++ [oldest])).2 }) := by
  unfold BucketManager.acquire
  rw [if_neg hc, hq]

theorem bucketInv_insert {m : BucketManager} (h : BucketInv m) {i : Nat}
    (hi : i < MAX_BUCKETS) (hnotin : i ∉ m.queue) :
    BucketInv { occupied := m.occupied.set i true, queue := m.queue ++ [i] } := by
  refine bucketInv_of_parts (by simpa using h.1) ?_ ?_
  · refine List.Nodup.append h.2.1 (List.nodup_singleton i) ?_
    intro a ha hb
    rw [List.mem_singleton] at hb
    exact hnotin (hb ▸ ha)
  · intro j
    simp only [List.mem_append, List.mem_singleton]
    by_cases hji : j = i
    · subst hji
      simp only [or_true, true_iff]
      exact getD_set_self m.occupied false j true (by rw [h.1]; exact hi)
    · rw [getD_set_ne m.occupied false true (fun e => hji e.symm)]
      simp only [hji, or_false]
      exact bucketInv_mem_iff h j

theorem find_none_queue_full {m : BucketManager} (h : BucketInv m)
    (hnone : (List.range MAX_BUCKETS).find? (fun i => !(m.occupied.getD i false)) = none) :
    MAX_BUCKETS ≤ m.queue.length := by
  have hall : ∀ i ∈ List.range MAX_BUCKETS, ¬(!(m.occupied.getD i false)) = true :=
    fun i hi => by
      have := List.find?_eq_none.mp hnone i hi
      simpa using this
  have hsub : List.range MAX_BUCKETS ⊆ m.queue := by
    intro i hi
    have : m.occupied.getD i false = true := by
      have := hall i hi
      simpa using this
    exact (bucketInv_mem_iff h i).mpr this
  have := (List.subperm_of_subset (List.nodup_range MAX_BUCKETS) hsub).length_le
  simpa using this

theorem bucketInv_acquire {m : BucketManager} (h : BucketInv m) :
    BucketInv (m.acquire).2 := by
  by_cases hc : m.queue.length < HIGH_WATER_MARK
  · cases hfind : (List.range MAX_BUCKETS).find? (fun i => !(m.occupied.getD i false)) with
    | some i =>
      rw [acquire_eq_of_find hc hfind]
      have hi : i < MAX_BUCKETS := List.mem_range.mp (List.mem_of_find?_eq_some hfind)
      have hpred : (!(m.occupied.getD i false)) = true :=
        List.find?_some (p := fun i => !(m.occupied.getD i false)) hfind
      have hfree : m.occupied.getD i false = false := by simpa using hpred
      have hnotin : i ∉ m.queue := by
        intro hmem
        have := (bucketInv_mem_iff h i).mp hmem
        rw [this] at hfree
        exact absurd hfree (by decide)
      exact bucketInv_insert h hi hnotin
    | none =>
      have h16 : (16 : Nat) ≤ m.queue.length := find_none_queue_full h hfind
      have hc12 : m.queue.length < 12 := hc
      omega
  · -- eviction path: the queue holds at least HIGH_WATER_MARK = 12 entries
    have hlen : HIGH_WATER_MARK ≤ m.queue.length := Nat.le_of_not_lt hc
    cases hq : m.queue with
    | nil => rw [hq] at hlen; simp [HIGH_WATER_MARK] at hlen
    | cons oldest rest =>
      rw [acquire_eq_evict hq hc]
      have hrest7 : 7 ≤ rest.length := by
        have := hlen; rw [hq] at this; simp [HIGH_WATER_MARK] at this; omega
      have h7 : 7 ≤ (rest ++ [oldest]).length := by simp; omega
      have hqd : (popFreeN 7 (m.occupied, rest ++ [oldest])).2 = rest.drop 7 ++ [oldest] := by
        rw [popFreeN_queue 7 m.occupied (rest ++ [oldest]) h7,
          List.drop_append_of_le_length hrest7]
      have htk : (rest ++ [oldest]).take 7 = rest.take 7 :=
        List.take_append_of_le_length hrest7
      have hnd : (oldest :: rest).Nodup := hq ▸ h.2.1
      have hnotin : oldest ∉ rest := (List.nodup_cons.mp hnd).1
      have hndrest : rest.Nodup := (List.nodup_cons.mp hnd).2
      have hdisj : ∀ a ∈ rest.take 7, a ∉ rest.drop 7 := by
        have : (rest.take 7 ++ rest.drop 7).Nodup := by
          rw [List.take_append_drop]; exact hndrest
        intro a ha hb
        exact (List.disjoint_of_nodup_append this) ha hb
      refine bucketInv_of_parts ?_ ?_ ?_
      · rw [popFreeN_occ_length]; exact h.1
      · rw [hqd]
        refine List.Nodup.append (hndrest.sublist (List.drop_sublist 7 rest))
          (List.nodup_singleton oldest) ?_
        intro a ha hb
        rw [List.mem_singleton] at hb
        exact hnotin (hb ▸ List.mem_of_mem_drop ha)
      · intro j
        rw [hqd, popFreeN_getD 7 m.occupied (rest ++ [oldest]) j, htk]
        have hmem_old := bucketInv_mem_iff h j
        rw [hq] at hmem_old
        by_cases hjt : j ∈ rest.take 7
        · -- popped and freed: not in the new queue, marked false
          simp only [hjt, if_true]
          constructor
          · intro hmem
            rcases List.mem_append.mp hmem with hmem | hmem
            · exact absurd hmem (hdisj j hjt)
            · rw [List.mem_singleton] at hmem
              subst hmem
              exact absurd (List.mem_of_mem_take hjt) hnotin
          · intro hfalse; exact absurd hfalse (by decide)
        · simp only [hjt, if_false]
          rw [← hmem_old]
          constructor
          · intro hmem
            rcases List.mem_append.mp hmem with hmem | hmem
            · exact List.mem_cons_of_mem oldest (List.mem_of_mem_drop hmem)
            · rw [List.mem_singleton] at hmem
              exact hmem ▸ List.mem_cons_self oldest rest
          · intro hmem
            rcases List.mem_cons.mp hmem with hmem | hmem
            · exact List.mem_append.mpr (Or.inr (by simp [hmem]))
            · refine List.mem_append.mpr (Or.inl ?_)
              have : j ∈ rest.take 7 ++ rest.drop 7 := by
                rw [List.take_append_drop]; exact hmem
              rcases List.mem_append.mp this with hmem' | hmem'
              · exact absurd hmem' hjt
              · exact hmem'

theorem bucketInv_release {m : BucketManager} (h : BucketInv m) (idx : Nat) :
    BucketInv (m.release idx) := by
  unfold BucketManager.release
  by_cases hidx : idx < MAX_BUCKETS
  · rw [if_pos hidx]
    refine bucketInv_of_parts (by simpa using h.1) (h.2.1.filter _) ?_
    intro j
    rw [List.mem_filter]
    by_cases hji : j = idx
    · subst hji
      rw [getD_set_self m.occupied false j false (by rw [h.1]; exact hidx)]
      simp
    · rw [getD_set_ne m.occupied false false (fun e => hji e.symm)]
      constructor
      · intro hand
        exact (bucketInv_mem_iff h j).mp hand.1
      · intro hocc
        refine ⟨(bucketInv_mem_iff h j).mpr hocc, ?_⟩
        simp [hji]
  · rw [if_neg hidx]; exact h

theorem bucketInv_new : BucketInv BucketManager.new := by decide

theorem bucketInv_clear (m : BucketManager) : BucketInv m.clear := by
  have : m.clear = BucketManager.new := rfl
  rw [this]; exact bucketInv_new

theorem bucketInv_fold {L : List (Nat × Bool × Nat × Nat)} :
    ∀ {m : BucketManager}, BucketInv m → (∀ b ∈ L, b.1 ∉ m.queue) →
      (L.map (fun b => b.1)).Nodup → BucketInv (L.foldl fromDeviceStep m) := by
  induction L with
  | nil => intro m h _ _; exact h
  | cons b L ih =>
    intro m h hfresh hnd
    rw [List.foldl_cons]
    rw [List.map_cons, List.nodup_cons] at hnd
    by_cases hb : b.1 < MAX_BUCKETS ∧ b.2.1 = true
    · have hstep : fromDeviceStep m b =
          { occupied := m.occupied.set b.1 true, queue := m.queue ++ [b.1] } := by
        unfold fromDeviceStep; rw [if_pos hb]
      rw [hstep]
      refine ih (bucketInv_insert h hb.1 (hfresh b (List.mem_cons_self b L))) ?_ hnd.2
      intro b' hb' hmem
      rcases List.mem_append.mp hmem with hmem | hmem
      · exact hfresh b' (List.mem_cons_of_mem b hb') hmem
      · rw [List.mem_singleton] at hmem
        exact hnd.1 (hmem ▸ List.mem_map_of_mem (fun b => b.1) hb')
    · have hstep : fromDeviceStep m b = m := by
        unfold fromDeviceStep; rw [if_neg hb]
      rw [hstep]
      exact ih h (fun b' hb' => hfresh b' (List.mem_cons_of_mem b hb')) hnd.2

theorem query_all_buckets_indices (k : KrakenDevice) :
    ((query_all_buckets k).map (fun b => b.1)) = List.range 16 := by
  rfl

theorem bucketInv_from_device (k : KrakenDevice) :
    BucketInv (BucketManager.from_device k) := by
  unfold BucketManager.from_device
  by_cases hok : k.queryOk
  · rw [if_pos hok]
    refine bucketInv_fold bucketInv_new (fun b _ hmem => ?_) ?_
    · simp [BucketManager.new] at hmem
    · rw [query_all_buckets_indices]; exact List.nodup_range 16
  · rw [if_neg hok]; exact bucketInv_new

-- ============================================================================
-- §17  Claim theorems: status parsing (C1, C10)
-- ============================================================================

/-- C1 (counterexample): a 64-byte status frame carrying the recognized
alternate header `0x71` with sub-byte `0x01`, whose temperature bytes all
read `0xFF` (both at the primary offsets 15/16 and at the alternate offsets
2/3), is parsed into a `DeviceStatus` instead of being rejected: the
firmware-fault sentinel is not detected under the alternate header, so the
claim "regardless of which recognized status header" is false. -/
theorem parse_alt_sentinel_parses_ok :
    DeviceStatus.parse altSentinelFrame =
      .ok { liquid_temp_c := 561 / 2, pump_rpm := 0, pump_duty := 0,
            fan_rpm := 65280, fan_duty := 0 } ∧
    altSentinelFrame.length = 64 ∧
    altSentinelFrame.getD 0 0 = 0x71 ∧ altSentinelFrame.getD 1 0 = 0x01 ∧
    altSentinelFrame.getD 15 0 = 0xFF ∧ altSentinelFrame.getD 16 0 = 0xFF ∧
    altSentinelFrame.getD 2 0 = 0xFF ∧ altSentinelFrame.getD 3 0 = 0xFF := by
  refine ⟨?_, by decide, by decide, by decide, by decide, by decide, by decide, by decide⟩
  have h : DeviceStatus.parse altSentinelFrame =
      .ok { liquid_temp_c := (255 : ℚ) + (255 : ℚ) / 10, pump_rpm := 0, pump_duty := 0,
            fan_rpm := 65280, fan_duty := 0 } := by
    unfold DeviceStatus.parse
    rw [if_neg (by decide), if_neg (by decide), if_pos ⟨Or.inl (by decide), by decide⟩]
    norm_num [altSentinelFrame, Nat.shiftLeft_eq]
  rw [h]
  norm_num

/-- C1 (amended): only frames carrying the primary status header `0x75 0x01`
have their temperature bytes (offsets 15/16) checked against the
firmware-fault sentinel `0xFF 0xFF`; every such frame of at least 25 bytes is
rejected with `InvalidResponse`, while alternate-header frames are parsed
without any sentinel check. -/
theorem parse_primary_sentinel_invalid (buf : List Nat)
    (hlen : 25 ≤ buf.length) (h0 : buf.getD 0 0 = 0x75) (h1 : buf.getD 1 0 = 0x01)
    (h15 : buf.getD 15 0 = 0xFF) (h16 : buf.getD 16 0 = 0xFF) :
    DeviceStatus.parse buf =
      .error (.InvalidResponse
        "Invalid temperature reading (0xFFFF). Possible firmware fault.") := by
  unfold DeviceStatus.parse
  rw [if_neg (by omega)]
  rw [if_pos ⟨by rw [h0]; rfl, by rw [h1]; rfl⟩]
  rw [if_pos ⟨h15, h16⟩]

/-- C1 (witness): the amended theorem applied to a concrete primary-header
sentinel frame. -/
theorem parse_primary_sentinel_invalid_witness :
    DeviceStatus.parse primarySentinelFrame =
      .error (.InvalidResponse
        "Invalid temperature reading (0xFFFF). Possible firmware fault.") :=
  parse_primary_sentinel_invalid primarySentinelFrame
    (by decide) (by decide) (by decide) (by decide) (by decide)

/-- C10: every buffer shorter than 25 bytes is rejected up front with an
`InvalidResponse` error (all later fixed-offset reads sit at offsets `≤ 24`),
so `parse` is total over arbitrary-length buffers. -/
theorem parse_short_buffer (buf : List Nat) (h : buf.length < 25) :
    DeviceStatus.parse buf = .error (.InvalidResponse "Buffer too short") := by
  unfold DeviceStatus.parse
  rw [if_pos h]

/-- C10 (witness): a concrete 2-byte buffer. -/
theorem parse_short_buffer_witness :
    DeviceStatus.parse [0x75, 0x01] = .error (.InvalidResponse "Buffer too short") :=
  parse_short_buffer [0x75, 0x01] (by decide)

-- ============================================================================
-- §18  Claim theorems: BucketManager (C2, C3, C9)
-- ============================================================================

/-- C2: from an empty manager, 12 sequential `acquire` calls return 12
distinct indices and leave `occupied_count` at 12; the 13th call returns the
first index acquired (the oldest), and afterwards `occupied_count` is at
most 6. -/
theorem acquire_thirteenth_evicts :
    (acquireSeq 12 BucketManager.new).1.Nodup ∧
    (acquireSeq 12 BucketManager.new).1.length = 12 ∧
    (acquireSeq 12 BucketManager.new).2.occupied_count = 12 ∧
    ((acquireSeq 12 BucketManager.new).2.acquire).1 =
      (acquireSeq 12 BucketManager.new).1.headD 99 ∧
    ((acquireSeq 12 BucketManager.new).2.acquire).2.occupied_count ≤ 6 := by
  decide

/-- C3: `new`, `from_device`, `acquire`, `release` and `clear` all preserve
the invariant: an index is in the arrival-order queue iff its occupancy entry
is marked, the queue has no duplicates, and it never exceeds 16 entries. -/
theorem bucketManager_invariant_preserved :
    BucketInv BucketManager.new ∧
    (∀ k : KrakenDevice, BucketInv (BucketManager.from_device k)) ∧
    (∀ m : BucketManager, BucketInv m → BucketInv (m.acquire).2) ∧
    (∀ (m : BucketManager) (idx : Nat), BucketInv m → BucketInv (m.release idx)) ∧
    (∀ m : BucketManager, BucketInv (m.clear)) :=
  ⟨bucketInv_new, bucketInv_from_device, fun _ h => bucketInv_acquire h,
   fun _ idx h => bucketInv_release h idx, bucketInv_clear⟩

/-- C3 (witness): the acquire and release components applied to the concrete
empty manager. -/
theorem bucketManager_invariant_preserved_witness :
    BucketInv ((BucketManager.new.acquire).2) ∧ BucketInv (BucketManager.new.release 3) :=
  ⟨bucketManager_invariant_preserved.2.2.1 BucketManager.new (by decide),
   bucketManager_invariant_preserved.2.2.2.1 BucketManager.new 3 (by decide)⟩

/-- C9: `release` is idempotent: releasing the same index twice from any
state equals releasing it once. -/
theorem release_idempotent (m : BucketManager) (idx : Nat) :
    (m.release idx).release idx = m.release idx := by
  by_cases h : idx < MAX_BUCKETS
  · simp [BucketManager.release, h, List.set_set, List.filter_filter]
  · simp [BucketManager.release, h]

-- ============================================================================
-- §19  Claim theorem: fixed-speed command (C8)
-- ============================================================================

theorem build_speed_profile_eq (channel : Channel) (duties : List Nat) :
    build_speed_profile_cmd channel duties =
      CMD_SET_SPEED_HEADER :: channel.id :: duties ++ (List.replicate 62 0).drop duties.length := by
  simp only [build_speed_profile_cmd, writeSlice]
  have h1 : ((List.replicate HID_REPORT_LENGTH (0 : Nat)).set 0 CMD_SET_SPEED_HEADER).set 1
      channel.id = CMD_SET_SPEED_HEADER :: channel.id :: List.replicate 62 0 := rfl
  rw [h1]
  have h3 : (CMD_SET_SPEED_HEADER :: channel.id :: List.replicate 62 (0 : Nat)).take 2 =
      [CMD_SET_SPEED_HEADER, channel.id] := rfl
  have h4 : (CMD_SET_SPEED_HEADER :: channel.id :: List.replicate 62 (0 : Nat)).drop
      (2 + duties.length) = (List.replicate 62 (0 : Nat)).drop duties.length := by
    rw [Nat.add_comm]; rfl
  rw [h3, h4]
  simp

/-- C8: `build_fixed_speed_cmd` fails with `InvalidDuty` exactly when the duty
is outside the channel's range (Pump `[20, 100]`, Fan `[0, 100]`); otherwise
it returns a 64-byte frame: byte 0 is `0x72`, byte 1 the channel id, bytes
2..41 all carry the duty, and bytes 42..63 are zero. -/
theorem build_fixed_speed_cmd_spec (channel : Channel) (duty : Nat) :
    (channel.min_duty ≤ duty ∧ duty ≤ channel.max_duty →
      ∃ frame, build_fixed_speed_cmd channel duty = .ok frame ∧
        frame.length = 64 ∧
        frame.getD 0 0 = CMD_SET_SPEED_HEADER ∧
        frame.getD 1 0 = channel.id ∧
        (∀ i, 2 ≤ i → i ≤ 41 → frame.getD i 0 = duty) ∧
        (∀ i, 42 ≤ i → i ≤ 63 → frame.getD i 0 = 0)) ∧
    (¬(channel.min_duty ≤ duty ∧ duty ≤ channel.max_duty) →
      build_fixed_speed_cmd channel duty =
        .error (.InvalidDuty channel.debugName duty channel.min_duty channel.max_duty)) := by
  constructor
  · intro hin
    have hval : channel.validate_duty duty = .ok duty := by
      unfold Channel.validate_duty
      rw [if_neg (by omega)]
    refine ⟨CMD_SET_SPEED_HEADER :: channel.id :: List.replicate 40 duty ++ List.replicate 22 0,
      ?_, by simp, by simp, by simp, ?_, ?_⟩
    · unfold build_fixed_speed_cmd
      rw [hval]
      have := build_speed_profile_eq channel (List.replicate CURVE_POINTS duty)
      simp only [List.length_replicate] at this
      simp [this, CURVE_POINTS]
      rfl
    · intro i h2 h41
      obtain ⟨k, rfl⟩ : ∃ k, i = k + 2 := ⟨i - 2, by omega⟩
      show (List.replicate 40 duty ++ List.replicate 22 0).getD k 0 = duty
      rw [List.getD_append _ _ _ _ (by simp; omega)]
      rw [getD_replicate]
      rw [if_pos (by omega)]
    · intro i h42 h63
      obtain ⟨k, rfl⟩ : ∃ k, i = k + 2 := ⟨i - 2, by omega⟩
      show (List.replicate 40 duty ++ List.replicate 22 0).getD k 0 = 0
      rw [List.getD_append_right _ _ _ _ (by simp; omega)]
      rw [getD_replicate]
      split <;> rfl
  · intro hout
    have hval : channel.validate_duty duty =
        .error (.InvalidDuty channel.debugName duty channel.min_duty channel.max_duty) := by
      unfold Channel.validate_duty
      rw [if_pos (by omega)]
    unfold build_fixed_speed_cmd
    rw [hval]
    rfl

/-- C8 (witness): the Pump channel rejects duty 19 with the range `[20, 100]`. -/
theorem build_fixed_speed_cmd_spec_witness :
    build_fixed_speed_cmd Channel.Pump 19 = .error (.InvalidDuty "Pump" 19 20 100) :=
  (build_fixed_speed_cmd_spec Channel.Pump 19).2 (by decide)

-- ============================================================================
-- §20  max?/min? lemmas and claim theorem C5
-- ============================================================================

theorem foldl_max_spec : ∀ (l : List Nat) (a : Nat),
    a ≤ l.foldl max a ∧ (l.foldl max a = a ∨ l.foldl max a ∈ l) ∧
      ∀ x ∈ l, x ≤ l.foldl max a := by
  intro l
  induction l with
  | nil => intro a; exact ⟨le_refl a, Or.inl rfl, by intro x hx; cases hx⟩
  | cons b l ih =>
    intro a
    rw [List.foldl_cons]
    obtain ⟨h1, h2, h3⟩ := ih (max a b)
    refine ⟨le_trans (le_max_left a b) h1, ?_, ?_⟩
    · rcases h2 with h | h
      · rcases max_choice a b with hm | hm
        · exact Or.inl (h.trans hm)
        · refine Or.inr ?_
          rw [h, hm]
          exact List.mem_cons_self b l
      · exact Or.inr (List.mem_cons_of_mem b h)
    · intro x hx
      rcases List.mem_cons.mp hx with hx | hx
      · rw [hx]; exact le_trans (le_max_right a b) h1
      · exact h3 x hx

theorem foldl_min_spec : ∀ (l : List Nat) (a : Nat),
    l.foldl min a ≤ a ∧ (l.foldl min a = a ∨ l.foldl min a ∈ l) ∧
      ∀ x ∈ l, l.foldl min a ≤ x := by
  intro l
  induction l with
  | nil => intro a; exact ⟨le_refl a, Or.inl rfl, by intro x hx; cases hx⟩
  | cons b l ih =>
    intro a
    rw [List.foldl_cons]
    obtain ⟨h1, h2, h3⟩ := ih (min a b)
    refine ⟨le_trans h1 (min_le_left a b), ?_, ?_⟩
    · rcases h2 with h | h
      · rcases min_choice a b with hm | hm
        · exact Or.inl (h.trans hm)
        · refine Or.inr ?_
          rw [h, hm]
          exact List.mem_cons_self b l
      · exact Or.inr (List.mem_cons_of_mem b h)
    · intro x hx
      rcases List.mem_cons.mp hx with hx | hx
      · rw [hx]; exact le_trans h1 (min_le_right a b)
      · exact h3 x hx

theorem max?_eq_of_bounds {l : List Nat} {M : Nat} (hmem : M ∈ l)
    (hbd : ∀ x ∈ l, x ≤ M) : l.max? = some M := by
  cases l with
  | nil => cases hmem
  | cons a l =>
    obtain ⟨h1, h2, h3⟩ := foldl_max_spec l a
    have heq : (a :: l).max? = some (l.foldl max a) := rfl
    rw [heq]
    have hle : l.foldl max a ≤ M := by
      rcases h2 with h | h
      · rw [h]; exact hbd a (List.mem_cons_self a l)
      · exact hbd _ (List.mem_cons_of_mem a h)
    have hge : M ≤ l.foldl max a := by
      rcases List.mem_cons.mp hmem with h | h
      · rw [h]; exact h1
      · exact h3 M h
    rw [Nat.le_antisymm hle hge]

theorem cmo_cont (buckets : List (Nat × Bool × Nat × Nat)) (target needed : Nat)
    (hnotreuse : ∀ b ∈ buckets, b.1 = target → ¬(b.2.1 = true ∧ needed ≤ b.2.2.2)) :
    calculate_memory_offset buckets target needed =
      (if ((((buckets.filter (fun b => b.2.1 && b.1 != target)).map
              (fun b => (b.2.2.1 + b.2.2.2) % U16_MOD)).max?).getD 0 + needed) % U16_MOD
            ≤ LCD_TOTAL_MEMORY then
        (((buckets.filter (fun b => b.2.1 && b.1 != target)).map
            (fun b => (b.2.2.1 + b.2.2.2) % U16_MOD)).max?).getD 0
      else if (((buckets.filter (fun b => b.2.1 && b.1 != target)).map
              (fun b => b.2.2.1)).min?).getD 0xFFFF ≠ 0xFFFF ∧
            needed ≤ (((buckets.filter (fun b => b.2.1 && b.1 != target)).map
              (fun b => b.2.2.1)).min?).getD 0xFFFF then 0
      else 0) := by
  simp only [calculate_memory_offset]
  cases hf : buckets.find? (fun b => b.1 == target) with
  | none => rfl
  | some b =>
    have hb := List.mem_of_find?_eq_some hf
    have hb1 : b.1 = target := by
      have := List.find?_some (p := fun b : Nat × Bool × Nat × Nat => b.1 == target) hf
      simpa using this
    dsimp only
    rw [if_neg (hnotreuse b hb hb1)]

/-- C5: `calculate_memory_offset` reuses the target bucket's start offset
when that bucket exists occupied with enough allocated pages; otherwise it
returns `max_end` — the highest `start + size` among the other occupied
buckets, `0` if there are none — whenever `max_end + needed ≤ 24320`, and `0`
in every remaining case.  Stated under no-`u16`-overflow side conditions
(in debug builds the source would panic on overflow). -/
theorem calculate_memory_offset_spec (buckets : List (Nat × Bool × Nat × Nat))
    (target needed : Nat)
    (hnd : (buckets.map (fun b => b.1)).Nodup)
    (hnw : ∀ b ∈ buckets, b.2.2.1 + b.2.2.2 + needed < U16_MOD) :
    (∀ b ∈ buckets, b.1 = target → b.2.1 = true → needed ≤ b.2.2.2 →
        calculate_memory_offset buckets target needed = b.2.2.1) ∧
    ((∀ b ∈ buckets, b.1 = target → ¬(b.2.1 = true ∧ needed ≤ b.2.2.2)) →
      (∀ M, (∃ b ∈ buckets, b.2.1 = true ∧ b.1 ≠ target ∧ b.2.2.1 + b.2.2.2 = M) →
          (∀ b ∈ buckets, b.2.1 = true → b.1 ≠ target → b.2.2.1 + b.2.2.2 ≤ M) →
          (M + needed ≤ LCD_TOTAL_MEMORY →
            calculate_memory_offset buckets target needed = M) ∧
          (LCD_TOTAL_MEMORY < M + needed →
            calculate_memory_offset buckets target needed = 0)) ∧
      ((∀ b ∈ buckets, b.2.1 = true → b.1 = target) →
        calculate_memory_offset buckets target needed = 0)) := by
  have hpair : buckets.Pairwise (fun a b => a.1 ≠ b.1) := by
    rw [List.Nodup, List.pairwise_map] at hnd
    exact hnd
  have hsymm : Symmetric (fun a b : Nat × Bool × Nat × Nat => a.1 ≠ b.1) :=
    fun x y h e => h e.symm
  constructor
  · -- in-place reuse of the target bucket
    intro b hb hb1 hbex hbsz
    have hfind : buckets.find? (fun c => c.1 == target) = some b := by
      refine find?_unique hb (by simp [hb1]) ?_
      intro c hc hcp
      have hc1 : c.1 = target := by simpa using hcp
      by_contra hne
      exact (hpair.forall hsymm hc hb hne) (hb1 ▸ hc1)
    simp only [calculate_memory_offset]
    rw [hfind]
    dsimp only
    rw [if_pos ⟨hbex, hbsz⟩]
  · intro hnotreuse
    have hc := cmo_cont buckets target needed hnotreuse
    constructor
    · -- a maximal end offset M exists among the other occupied buckets
      intro M hex hbd
      obtain ⟨b0, hb0mem, hb0ex, hb0ne, hb0sum⟩ := hex
      have hb0filter : b0 ∈ buckets.filter (fun b => b.2.1 && b.1 != target) := by
        rw [List.mem_filter]
        exact ⟨hb0mem, by simp [hb0ex, hb0ne]⟩
      have hmodid : ∀ b ∈ buckets, (b.2.2.1 + b.2.2.2) % U16_MOD = b.2.2.1 + b.2.2.2 := by
        intro b hb
        exact Nat.mod_eq_of_lt (by have := hnw b hb; omega)
      have hMmem : M ∈ (buckets.filter (fun b => b.2.1 && b.1 != target)).map
          (fun b => (b.2.2.1 + b.2.2.2) % U16_MOD) := by
        refine List.mem_map.mpr ⟨b0, hb0filter, ?_⟩
        rw [hmodid b0 hb0mem, hb0sum]
      have hMbd : ∀ x ∈ (buckets.filter (fun b => b.2.1 && b.1 != target)).map
          (fun b => (b.2.2.1 + b.2.2.2) % U16_MOD), x ≤ M := by
        intro x hx
        obtain ⟨b, hbf, hbx⟩ := List.mem_map.mp hx
        rw [List.mem_filter] at hbf
        have hbex : b.2.1 = true := by
          have := hbf.2; simp at this; exact this.1
        have hbne : b.1 ≠ target := by
          have := hbf.2; simp at this; exact this.2
        rw [← hbx, hmodid b hbf.1]
        exact hbd b hbf.1 hbex hbne
      have hmax : ((buckets.filter (fun b => b.2.1 && b.1 != target)).map
          (fun b => (b.2.2.1 + b.2.2.2) % U16_MOD)).max? = some M :=
        max?_eq_of_bounds hMmem hMbd
      have hMneed : (M + needed) % U16_MOD = M + needed := by
        have := hnw b0 hb0mem
        exact Nat.mod_eq_of_lt (by omega)
      rw [hmax] at hc
      simp only [Option.getD_some] at hc
      rw [hMneed] at hc
      constructor
      · intro hfits
        rw [hc, if_pos hfits]
      · intro hnofit
        rw [hc, if_neg (by omega)]
        split <;> rfl
    · -- no other occupied buckets: the filter is empty and the result is 0
      intro hnone
      have hfe : buckets.filter (fun b => b.2.1 && b.1 != target) = [] := by
        rw [List.filter_eq_nil_iff]
        intro b hb
        by_cases hbex : b.2.1 = true
        · have := hnone b hb hbex
          simp [hbex, this]
        · simp [Bool.eq_false_iff.mpr hbex]
      rw [hfe] at hc
      simp only [List.map_nil] at hc
      rw [hc]
      split
      · rfl
      · split <;> rfl

/-- C5 (witness): with one other bucket occupying pages `[0, 100)` and 50
pages needed for target index 1, the planner appends at `max_end = 100`. -/
theorem calculate_memory_offset_spec_witness :
    calculate_memory_offset [(0, true, 0, 100)] 1 50 = 100 := by
  have h := calculate_memory_offset_spec [(0, true, 0, 100)] 1 50 (by decide)
    (by intro b hb; fin_cases hb; decide)
  have h2 := h.2 (by intro b hb; fin_cases hb; decide)
  have h3 := h2.1 100 ⟨(0, true, 0, 100), by decide, by decide, by decide, by decide⟩
    (by intro b hb; fin_cases hb; decide)
  exact h3.1 (by decide)

-- ============================================================================
-- §21a  Round-to-nearest-even and binary32 rounding lemmas
-- ============================================================================

theorem rne_err (x : ℚ) : |(rne x : ℚ) - x| ≤ 1 / 2 := by
  have h0 : ((⌊x⌋ : ℚ)) ≤ x := Int.floor_le x
  have h1 : x < ⌊x⌋ + 1 := Int.lt_floor_add_one x
  unfold rne
  split_ifs with hlt hgt heven
  · exact abs_le.mpr ⟨by linarith, by linarith⟩
  · push_cast
    exact abs_le.mpr ⟨by linarith, by linarith⟩
  · have heq : x - ⌊x⌋ = 1 / 2 := le_antisymm (not_lt.mp hgt) (not_lt.mp hlt)
    exact abs_le.mpr ⟨by linarith, by linarith⟩
  · have heq : x - ⌊x⌋ = 1 / 2 := le_antisymm (not_lt.mp hgt) (not_lt.mp hlt)
    push_cast
    exact abs_le.mpr ⟨by linarith, by linarith⟩

theorem rne_eq_of_lt_half {x : ℚ} {n : ℤ} (h1 : (n : ℚ) ≤ x) (h2 : x < n + 1 / 2) :
    rne x = n := by
  have hfl : ⌊x⌋ = n := by
    rw [Int.floor_eq_iff]
    exact ⟨h1, by push_cast; linarith⟩
  unfold rne
  rw [hfl, if_pos (by push_cast; linarith)]

theorem rne_int (n : ℤ) : rne (n : ℚ) = n :=
  rne_eq_of_lt_half (le_refl _) (by push_cast; linarith)

theorem int_log2_eq {q : ℚ} {e : ℤ} (hq : 0 < q)
    (h1 : (2 : ℚ) ^ e ≤ q) (h2 : q < (2 : ℚ) ^ (e + 1)) : Int.log 2 q = e := by
  have hl1 : (2 : ℚ) ^ (Int.log 2 q) ≤ q := Int.zpow_log_le_self (by norm_num) hq
  have hl2 : q < (2 : ℚ) ^ (Int.log 2 q + 1) := Int.lt_zpow_succ_log_self (by norm_num) q
  have ha : (2 : ℚ) ^ (Int.log 2 q) < (2 : ℚ) ^ (e + 1) := lt_of_le_of_lt hl1 h2
  have hb : (2 : ℚ) ^ e < (2 : ℚ) ^ (Int.log 2 q + 1) := lt_of_le_of_lt h1 hl2
  have h1' : Int.log 2 q < e + 1 :=
    (zpow_lt_zpow_iff_right₀ (by norm_num : (1 : ℚ) < 2)).mp ha
  have h2' : e < Int.log 2 q + 1 :=
    (zpow_lt_zpow_iff_right₀ (by norm_num : (1 : ℚ) < 2)).mp hb
  omega

theorem fl32_eval {q : ℚ} {e : ℤ} {n : ℤ} (hq : 0 < q)
    (h1 : (2 : ℚ) ^ e ≤ q) (h2 : q < (2 : ℚ) ^ (e + 1))
    (hn1 : (n : ℚ) ≤ q * 2 ^ ((23 : ℤ) - e)) (hn2 : q * 2 ^ ((23 : ℤ) - e) < n + 1 / 2) :
    fl32 q = (n : ℚ) * 2 ^ (e - 23) := by
  have hlog := int_log2_eq hq h1 h2
  unfold fl32
  rw [if_neg (ne_of_gt hq), if_pos hq, hlog, rne_eq_of_lt_half hn1 hn2]

theorem fl32_neg_arg (q : ℚ) (h : q < 0) : fl32 q = -fl32 (-q) := by
  have hpos : 0 < -q := by linarith
  unfold fl32
  rw [if_neg (ne_of_lt h), if_neg (not_lt.mpr (le_of_lt h)),
    if_neg (ne_of_gt hpos), if_pos hpos]

theorem fl32_err_pos {q : ℚ} (hq : 0 < q) : |fl32 q - q| ≤ q * 2 ^ ((-24 : ℤ)) := by
  have key : fl32 q =
      (rne (q * 2 ^ ((23 : ℤ) - Int.log 2 q)) : ℚ) * 2 ^ (Int.log 2 q - 23) := by
    unfold fl32
    rw [if_neg (ne_of_gt hq), if_pos hq]
  set e := Int.log 2 q with he
  set x := q * 2 ^ ((23 : ℤ) - e) with hxdef
  have hpow_pos : (0 : ℚ) < 2 ^ (e - (23 : ℤ)) := zpow_pos (by norm_num) _
  have hxq : x * 2 ^ (e - (23 : ℤ)) = q := by
    rw [hxdef, mul_assoc, ← zpow_add₀ (by norm_num : (2 : ℚ) ≠ 0)]
    have hz : (23 : ℤ) - e + (e - 23) = 0 := by ring
    rw [hz, zpow_zero, mul_one]
  have herr := rne_err x
  have expand : fl32 q - q = ((rne x : ℚ) - x) * 2 ^ (e - (23 : ℤ)) := by
    rw [key, ← hxq, ← sub_mul]
  rw [expand, abs_mul, abs_of_pos hpow_pos]
  have hstep : |(rne x : ℚ) - x| * 2 ^ (e - (23 : ℤ)) ≤ (1 / 2) * 2 ^ (e - (23 : ℤ)) :=
    mul_le_mul_of_nonneg_right herr (le_of_lt hpow_pos)
  refine le_trans hstep ?_
  have h2e : (2 : ℚ) ^ e ≤ q := by
    rw [he]
    exact Int.zpow_log_le_self (by norm_num) hq
  have l1 : (1 / 2 : ℚ) * 2 ^ (e - (23 : ℤ)) = 2 ^ (e - (24 : ℤ)) := by
    rw [show (1 / 2 : ℚ) = (2 : ℚ) ^ ((-1 : ℤ)) from by norm_num,
      ← zpow_add₀ (by norm_num : (2 : ℚ) ≠ 0)]
    congr 1
    ring
  have l2 : q * (2 : ℚ) ^ ((-24 : ℤ)) ≥ 2 ^ e * (2 : ℚ) ^ ((-24 : ℤ)) :=
    mul_le_mul_of_nonneg_right h2e (le_of_lt (zpow_pos (by norm_num) _))
  have l3 : (2 : ℚ) ^ e * (2 : ℚ) ^ ((-24 : ℤ)) = 2 ^ (e - (24 : ℤ)) := by
    rw [← zpow_add₀ (by norm_num : (2 : ℚ) ≠ 0)]
    congr 1
  rw [l1]
  rw [l3] at l2
  exact l2

theorem fl32_zero : fl32 0 = 0 := by
  unfold fl32
  rw [if_pos rfl]

theorem fl32_err (q : ℚ) : |fl32 q - q| ≤ |q| * 2 ^ ((-24 : ℤ)) := by
  rcases lt_trichotomy q 0 with hneg | hzero | hpos
  · rw [fl32_neg_arg q hneg, abs_of_neg hneg]
    have hpos' : 0 < -q := by linarith
    have := fl32_err_pos hpos'
    calc |(-fl32 (-q)) - q| = |fl32 (-q) - (-q)| := by
          rw [show (-fl32 (-q)) - q = -(fl32 (-q) - (-q)) from by ring, abs_neg]
      _ ≤ (-q) * 2 ^ ((-24 : ℤ)) := this
  · rw [hzero, fl32_zero]
    simp
  · rw [abs_of_pos hpos]
    exact fl32_err_pos hpos

theorem fl32_eq_self_of_int_scaled {q : ℚ} (hq : 0 < q) {m : ℤ}
    (hm : q * 2 ^ ((23 : ℤ) - Int.log 2 q) = (m : ℚ)) : fl32 q = q := by
  have key : fl32 q =
      (rne (q * 2 ^ ((23 : ℤ) - Int.log 2 q)) : ℚ) * 2 ^ (Int.log 2 q - 23) := by
    unfold fl32
    rw [if_neg (ne_of_gt hq), if_pos hq]
  rw [key, hm, rne_int]
  rw [← hm, mul_assoc, ← zpow_add₀ (by norm_num : (2 : ℚ) ≠ 0)]
  have hz : (23 : ℤ) - Int.log 2 q + (Int.log 2 q - 23) = 0 := by ring
  rw [hz, zpow_zero, mul_one]

theorem fl32_intCast {n : ℤ} (h0 : 0 < n) (hn : n < 2 ^ 24) : fl32 (n : ℚ) = n := by
  have hq : (0 : ℚ) < (n : ℚ) := by exact_mod_cast h0
  set e := Int.log 2 ((n : ℚ)) with he
  have hl1 : (2 : ℚ) ^ e ≤ (n : ℚ) := by
    rw [he]
    exact Int.zpow_log_le_self (by norm_num) hq
  have hl2 : (n : ℚ) < (2 : ℚ) ^ (e + 1) := by
    rw [he]
    exact Int.lt_zpow_succ_log_self (by norm_num) _
  have he0 : 0 ≤ e := by
    by_contra hlt
    push_neg at hlt
    have h1 : (2 : ℚ) ^ e ≤ (2 : ℚ) ^ (0 : ℤ) :=
      (zpow_le_zpow_iff_right₀ (by norm_num : (1 : ℚ) < 2)).mpr (by omega)
    have h2 : (1 : ℚ) ≤ (n : ℚ) := by exact_mod_cast h0
    have h3 : (2 : ℚ) ^ e < (2 : ℚ) ^ (e + 1) :=
      (zpow_lt_zpow_iff_right₀ (by norm_num : (1 : ℚ) < 2)).mpr (by omega)
    -- e < 0 gives 2^(e+1) ≤ 2^0 = 1 ≤ n, contradicting n < 2^(e+1)
    have h4 : (2 : ℚ) ^ (e + 1) ≤ (2 : ℚ) ^ (0 : ℤ) :=
      (zpow_le_zpow_iff_right₀ (by norm_num : (1 : ℚ) < 2)).mpr (by omega)
    rw [zpow_zero] at h4
    linarith
  have he23 : e ≤ 23 := by
    by_contra hgt
    push_neg at hgt
    have h1 : (2 : ℚ) ^ ((24 : ℤ)) ≤ (2 : ℚ) ^ e :=
      (zpow_le_zpow_iff_right₀ (by norm_num : (1 : ℚ) < 2)).mpr (by omega)
    have h2 : ((2 : ℚ)) ^ ((24 : ℤ)) = ((2 ^ 24 : ℤ) : ℚ) := by norm_num
    have h3 : (n : ℚ) < ((2 ^ 24 : ℤ) : ℚ) := by exact_mod_cast hn
    linarith
  refine fl32_eq_self_of_int_scaled hq (m := n * 2 ^ ((23 : ℤ) - e).toNat) ?_
  rw [← he]
  push_cast
  rw [← zpow_natCast (2 : ℚ) ((23 - e).toNat),
    Int.toNat_of_nonneg (by omega : (0 : ℤ) ≤ 23 - e)]

-- ============================================================================
-- §21  Rounding and interpolation bounds
-- ============================================================================

theorem u8OfRound_bounds {q : ℚ} {L U : Nat} (hL : (L : ℚ) ≤ q) (hU : q ≤ (U : ℚ))
    (h255 : U ≤ 255) : L ≤ u8OfRound q ∧ u8OfRound q ≤ U := by
  have hLU : L ≤ U := by exact_mod_cast hL.trans hU
  have hfl : (L : ℤ) ≤ ⌊q + 1 / 2⌋ := by
    rw [Int.le_floor]
    push_cast
    linarith
  have hfu : ⌊q + 1 / 2⌋ ≤ (U : ℤ) := by
    have : ⌊q + 1 / 2⌋ < (U : ℤ) + 1 := by
      rw [Int.floor_lt]
      push_cast
      linarith
    omega
  have ht1 : L ≤ (⌊q + 1 / 2⌋).toNat := by
    rw [Int.le_toNat (le_trans (by exact_mod_cast Nat.zero_le L) hfl)]
    exact hfl
  have ht2 : (⌊q + 1 / 2⌋).toNat ≤ U := by
    rw [Int.toNat_le]
    exact hfu
  unfold u8OfRound
  exact ⟨le_min ht1 (le_trans hLU h255), le_trans (min_le_left _ _) ht2⟩

theorem fl32_intCast' {n : ℤ} (hn : |n| < 2 ^ 24) : fl32 (n : ℚ) = n := by
  rcases lt_trichotomy n 0 with hneg | hzero | hpos
  · have hstep : fl32 ((n : ℚ)) = -fl32 (-(n : ℚ)) :=
      fl32_neg_arg _ (by exact_mod_cast hneg)
    rw [hstep]
    have hcast : -((n : ℤ) : ℚ) = ((-n : ℤ) : ℚ) := by push_cast; ring
    rw [hcast, fl32_intCast (by omega) (by rw [abs_of_neg hneg] at hn; omega)]
    push_cast
    ring
  · subst hzero
    simp [fl32_zero]
  · exact fl32_intCast hpos (by rw [abs_of_pos hpos] at hn; omega)

theorem u8OfRound_bounds_slack {q : ℚ} {L U : Nat} (hL : (L : ℚ) - 1 / 4 ≤ q)
    (hU : q ≤ (U : ℚ) + 1 / 4) (h255 : U ≤ 255) :
    L ≤ u8OfRound q ∧ u8OfRound q ≤ U := by
  have hLU : L ≤ U := by
    by_contra hc
    push_neg at hc
    have : (U : ℚ) + 1 ≤ (L : ℚ) := by exact_mod_cast hc
    linarith
  have hfl : (L : ℤ) ≤ ⌊q + 1 / 2⌋ := by
    rw [Int.le_floor]
    push_cast
    linarith
  have hfu : ⌊q + 1 / 2⌋ ≤ (U : ℤ) := by
    have : ⌊q + 1 / 2⌋ < (U : ℤ) + 1 := by
      rw [Int.floor_lt]
      push_cast
      linarith
    omega
  have ht1 : L ≤ (⌊q + 1 / 2⌋).toNat := by
    rw [Int.le_toNat (le_trans (by exact_mod_cast Nat.zero_le L) hfl)]
    exact hfl
  have ht2 : (⌊q + 1 / 2⌋).toNat ≤ U := by
    rw [Int.toNat_le]
    exact hfu
  unfold u8OfRound
  exact ⟨le_min ht1 (le_trans hLU h255), le_trans (min_le_left _ _) ht2⟩

theorem interpValue_bounds {t1 d1 t2 d2 t L U : Nat} (h1 : t1 < t) (h2 : t < t2)
    (hL1 : L ≤ d1) (hU1 : d1 ≤ U) (hL2 : L ≤ d2) (hU2 : d2 ≤ U) (h255 : U ≤ 255) :
    L ≤ interpValue t1 d1 t2 d2 t ∧ interpValue t1 d1 t2 d2 t ≤ U := by
  have hεv : ((2 : ℚ) ^ ((-24 : ℤ))) = 1 / 16777216 := by norm_num
  have hden : (0 : ℚ) < (t2 : ℚ) - (t1 : ℚ) := by
    have : (t1 : ℚ) < (t2 : ℚ) := by exact_mod_cast lt_trans h1 h2
    linarith
  set ratio := ((t : ℚ) - (t1 : ℚ)) / ((t2 : ℚ) - (t1 : ℚ)) with hratio
  have hr0 : (0 : ℚ) ≤ ratio := by
    rw [hratio]
    apply div_nonneg _ (le_of_lt hden)
    have : (t1 : ℚ) ≤ (t : ℚ) := by exact_mod_cast le_of_lt h1
    linarith
  have hr1 : ratio ≤ 1 := by
    rw [hratio, div_le_one hden]
    have : (t : ℚ) ≤ (t2 : ℚ) := by exact_mod_cast le_of_lt h2
    linarith
  -- numeric bounds on the duty casts
  have hcL1 : (L : ℚ) ≤ (d1 : ℚ) := by exact_mod_cast hL1
  have hcL2 : (L : ℚ) ≤ (d2 : ℚ) := by exact_mod_cast hL2
  have hcU1 : (d1 : ℚ) ≤ (U : ℚ) := by exact_mod_cast hU1
  have hcU2 : (d2 : ℚ) ≤ (U : ℚ) := by exact_mod_cast hU2
  have hcU : (U : ℚ) ≤ 255 := by exact_mod_cast h255
  have hL0 : (0 : ℚ) ≤ (L : ℚ) := by positivity
  -- the rounded ratio r = fl32 ratio lies in [0, 1 + ε]
  have hrerr := fl32_err ratio
  rw [abs_of_nonneg hr0, hεv] at hrerr
  obtain ⟨hra, hrb⟩ := abs_le.mp hrerr
  have hrlo : 0 ≤ fl32 ratio := by linarith
  have hrhi : fl32 ratio ≤ 1 + 1 / 16777216 := by linarith
  -- the f32 difference of the two exact u8 duties is exact
  have habsint : |(d2 : ℤ) - (d1 : ℤ)| < 2 ^ 24 := by
    rw [abs_lt]
    have c1 : (d1 : ℤ) ≤ 255 := by exact_mod_cast le_trans hU1 h255
    have c2 : (d2 : ℤ) ≤ 255 := by exact_mod_cast le_trans hU2 h255
    have c3 : (0 : ℤ) ≤ (d1 : ℤ) := by positivity
    have c4 : (0 : ℤ) ≤ (d2 : ℤ) := by positivity
    constructor <;> omega
  have hdiff : fl32 ((d2 : ℚ) - (d1 : ℚ)) = (d2 : ℚ) - (d1 : ℚ) := by
    have h := fl32_intCast' habsint
    push_cast at h
    exact h
  -- bounds on the exact product r * (d2 - d1)
  have hpair : (L : ℚ) - (d1 : ℚ) - 255 / 16777216 ≤
        fl32 ratio * ((d2 : ℚ) - (d1 : ℚ)) ∧
      fl32 ratio * ((d2 : ℚ) - (d1 : ℚ)) ≤ (U : ℚ) - (d1 : ℚ) + 255 / 16777216 := by
    rcases le_total (d1 : ℚ) (d2 : ℚ) with hcase | hcase
    · constructor
      · have hb := mul_nonneg hrlo (show (0 : ℚ) ≤ (d2 : ℚ) - (d1 : ℚ) by linarith)
        linarith
      · have hb := mul_le_mul_of_nonneg_right hrhi
          (show (0 : ℚ) ≤ (d2 : ℚ) - (d1 : ℚ) by linarith)
        nlinarith
    · constructor
      · have hb := mul_le_mul_of_nonpos_right hrhi
          (show (d2 : ℚ) - (d1 : ℚ) ≤ 0 by linarith)
        nlinarith
      · have hb := mul_nonneg hrlo (show (0 : ℚ) ≤ (d1 : ℚ) - (d2 : ℚ) by linarith)
        nlinarith
  obtain ⟨hprL, hprU⟩ := hpair
  -- the rounded product
  have habspr : |fl32 ratio * ((d2 : ℚ) - (d1 : ℚ))| ≤ 256 := by
    apply abs_le.mpr
    constructor <;> linarith
  have hperr := fl32_err (fl32 ratio * ((d2 : ℚ) - (d1 : ℚ)))
  rw [hεv] at hperr
  obtain ⟨hpa, hpb⟩ := abs_le.mp hperr
  obtain ⟨hpra, hprb⟩ := abs_le.mp habspr
  have hpL : (L : ℚ) - (d1 : ℚ) - 511 / 16777216 ≤
      fl32 (fl32 ratio * ((d2 : ℚ) - (d1 : ℚ))) := by nlinarith
  have hpU : fl32 (fl32 ratio * ((d2 : ℚ) - (d1 : ℚ))) ≤
      (U : ℚ) - (d1 : ℚ) + 511 / 16777216 := by nlinarith
  -- the rounded sum
  have habss : |(d1 : ℚ) + fl32 (fl32 ratio * ((d2 : ℚ) - (d1 : ℚ)))| ≤ 512 := by
    apply abs_le.mpr
    constructor <;> linarith
  have hserr := fl32_err ((d1 : ℚ) + fl32 (fl32 ratio * ((d2 : ℚ) - (d1 : ℚ))))
  rw [hεv] at hserr
  obtain ⟨hsa, hsb⟩ := abs_le.mp hserr
  obtain ⟨hssa, hssb⟩ := abs_le.mp habss
  have hfinalL : (L : ℚ) - 1 / 4 ≤
      fl32 ((d1 : ℚ) + fl32 (fl32 ratio * ((d2 : ℚ) - (d1 : ℚ)))) := by nlinarith
  have hfinalU : fl32 ((d1 : ℚ) + fl32 (fl32 ratio * ((d2 : ℚ) - (d1 : ℚ)))) ≤
      (U : ℚ) + 1 / 4 := by nlinarith
  have hgoal : interpValue t1 d1 t2 d2 t =
      u8OfRound (fl32 ((d1 : ℚ) + fl32 (fl32 ratio * ((d2 : ℚ) - (d1 : ℚ))))) := by
    unfold interpValue
    rw [hdiff]
  rw [hgoal]
  exact u8OfRound_bounds_slack hfinalL hfinalU h255

theorem u8OfRound_natCast {d : Nat} (h : d ≤ 255) : u8OfRound (d : ℚ) = d := by
  have hfloor : ⌊(d : ℚ) + 1 / 2⌋ = (d : ℤ) := by
    rw [Int.floor_eq_iff]
    constructor
    · push_cast; linarith
    · push_cast; linarith
  unfold u8OfRound
  rw [hfloor]
  simp [h]

theorem interpValue_at_upper {t1 d1 t2 d2 : Nat} (hlt : t1 < t2) (hd1 : d1 ≤ 255)
    (h255 : d2 ≤ 255) : interpValue t1 d1 t2 d2 t2 = d2 := by
  have hden : ((t2 : ℚ) - (t1 : ℚ)) ≠ 0 := by
    have : (t1 : ℚ) < (t2 : ℚ) := by exact_mod_cast hlt
    intro h; linarith [sub_eq_zero.mp h]
  unfold interpValue
  rw [div_self hden]
  have hone : fl32 (1 : ℚ) = 1 := by
    have h := fl32_intCast (n := 1) (by norm_num) (by norm_num)
    simpa using h
  rw [hone]
  have habsint : |(d2 : ℤ) - (d1 : ℤ)| < 2 ^ 24 := by
    rw [abs_lt]
    have c1 : (d1 : ℤ) ≤ 255 := by exact_mod_cast hd1
    have c2 : (d2 : ℤ) ≤ 255 := by exact_mod_cast h255
    have c3 : (0 : ℤ) ≤ (d1 : ℤ) := by positivity
    have c4 : (0 : ℤ) ≤ (d2 : ℤ) := by positivity
    constructor <;> omega
  have hdiff : fl32 ((d2 : ℚ) - (d1 : ℚ)) = (d2 : ℚ) - (d1 : ℚ) := by
    have h := fl32_intCast' habsint
    push_cast at h
    exact h
  rw [hdiff, one_mul, hdiff]
  have hsum : (d1 : ℚ) + ((d2 : ℚ) - (d1 : ℚ)) = ((d2 : ℕ) : ℚ) := by ring
  rw [hsum]
  have habs2 : |(d2 : ℤ)| < 2 ^ 24 := by
    rw [abs_lt]
    have c2 : (d2 : ℤ) ≤ 255 := by exact_mod_cast h255
    have c4 : (0 : ℤ) ≤ (d2 : ℤ) := by positivity
    constructor <;> omega
  have hd2fl : fl32 ((d2 : ℕ) : ℚ) = ((d2 : ℕ) : ℚ) := by
    have h := fl32_intCast' habs2
    push_cast at h
    exact h
  rw [hd2fl]
  exact u8OfRound_natCast h255

theorem getD_range_map (f : Nat → Nat) {n i : Nat} (d : Nat) (h : i < n) :
    ((List.range n).map f).getD i d = f i := by
  rw [List.getD_eq_getElem?_getD, List.getElem?_map, List.getElem?_range h]
  rfl

-- ============================================================================
-- §22  Search on temperature-sorted lists
-- ============================================================================

theorem sorted_rfind_max {t : Nat} :
    ∀ (xs : List (Nat × Nat)), List.Sorted keyLE xs →
      xs.Pairwise (fun a b => a.1 ≠ b.1) →
      ∀ p ∈ xs, p.1 < t → (∀ q ∈ xs, q.1 < t → q.1 ≤ p.1) →
      xs.reverse.find? (fun q => q.1 < t) = some p := by
  intro xs
  induction xs using List.reverseRecOn with
  | nil => intro _ _ p hp; cases hp
  | append_singleton ys x ih =>
    intro hs hd p hp hplt hmax
    rw [List.reverse_append]
    simp only [List.reverse_singleton, List.singleton_append]
    obtain ⟨hsy, -, hrel⟩ := List.pairwise_append.mp hs
    obtain ⟨hdy, -, hdrel⟩ := List.pairwise_append.mp hd
    by_cases hx : x.1 < t
    · rw [List.find?_cons_of_pos _ (by simpa using hx)]
      rcases List.mem_append.mp hp with hpy | hpx
      · have h1 : p.1 ≤ x.1 := hrel p hpy x (List.mem_singleton_self x)
        have h2 : x.1 ≤ p.1 :=
          hmax x (List.mem_append.mpr (Or.inr (List.mem_singleton_self x))) hx
        have h3 : p.1 ≠ x.1 := hdrel p hpy x (List.mem_singleton_self x)
        exact absurd (Nat.le_antisymm h1 h2) h3
      · rw [List.mem_singleton] at hpx
        rw [hpx]
    · rw [List.find?_cons_of_neg _ (by simpa using hx)]
      rcases List.mem_append.mp hp with hpy | hpx
      · exact ih hsy hdy p hpy hplt
          (fun q hq hqt => hmax q (List.mem_append.mpr (Or.inl hq)) hqt)
      · rw [List.mem_singleton] at hpx
        rw [hpx] at hplt
        exact absurd hplt hx

theorem sorted_find_gt {t : Nat} :
    ∀ (xs : List (Nat × Nat)), List.Sorted keyLE xs →
      xs.Pairwise (fun a b => a.1 ≠ b.1) →
      ∀ p ∈ xs, t < p.1 → (∀ q ∈ xs, t < q.1 → p.1 ≤ q.1) →
      xs.find? (fun q => t < q.1) = some p := by
  intro xs
  induction xs with
  | nil => intro _ _ p hp; cases hp
  | cons x ys ih =>
    intro hs hd p hp hpgt hmin
    by_cases hx : t < x.1
    · rw [List.find?_cons_of_pos _ (by simpa using hx)]
      rcases List.mem_cons.mp hp with hpx | hpy
      · rw [hpx]
      · have h1 : x.1 ≤ p.1 := List.rel_of_sorted_cons hs p hpy
        have h2 : p.1 ≤ x.1 := hmin x (List.mem_cons_self x ys) hx
        have h3 : x.1 ≠ p.1 := (List.pairwise_cons.mp hd).1 p hpy
        exact absurd (Nat.le_antisymm h2 h1).symm h3
    · rw [List.find?_cons_of_neg _ (by simpa using hx)]
      rcases List.mem_cons.mp hp with hpx | hpy
      · rw [hpx] at hpgt; exact absurd hpgt hx
      · exact ih hs.of_cons (List.Pairwise.of_cons hd) p hpy hpgt
          (fun q hq hqt => hmin q (List.mem_cons_of_mem x hq) hqt)

theorem sorted_head_eq {xs : List (Nat × Nat)} (hs : List.Sorted keyLE xs)
    (hd : xs.Pairwise (fun a b => a.1 ≠ b.1)) {p : Nat × Nat} (hp : p ∈ xs)
    (hmin : ∀ q ∈ xs, p.1 ≤ q.1) : xs.headD (0, 0) = p := by
  cases xs with
  | nil => cases hp
  | cons x ys =>
    show x = p
    rcases List.mem_cons.mp hp with hpx | hpy
    · rw [hpx]
    · have h1 : x.1 ≤ p.1 := List.rel_of_sorted_cons hs p hpy
      have h2 : p.1 ≤ x.1 := hmin x (List.mem_cons_self x ys)
      have h3 : x.1 ≠ p.1 := (List.pairwise_cons.mp hd).1 p hpy
      exact absurd (Nat.le_antisymm h1 h2) h3

theorem sorted_getLast_eq {xs : List (Nat × Nat)} (hs : List.Sorted keyLE xs)
    (hd : xs.Pairwise (fun a b => a.1 ≠ b.1)) {p : Nat × Nat} (hp : p ∈ xs)
    (hmax : ∀ q ∈ xs, q.1 ≤ p.1) : xs.getLastD (0, 0) = p := by
  induction xs using List.reverseRecOn with
  | nil => cases hp
  | append_singleton ys x _ =>
    rw [List.getLastD_concat]
    obtain ⟨-, -, hrel⟩ := List.pairwise_append.mp hs
    obtain ⟨-, -, hdrel⟩ := List.pairwise_append.mp hd
    rcases List.mem_append.mp hp with hpy | hpx
    · have h1 : p.1 ≤ x.1 := hrel p hpy x (List.mem_singleton_self x)
      have h2 : x.1 ≤ p.1 :=
        hmax x (List.mem_append.mpr (Or.inr (List.mem_singleton_self x)))
      have h3 : p.1 ≠ x.1 := hdrel p hpy x (List.mem_singleton_self x)
      exact absurd (Nat.le_antisymm h2 h1).symm h3
    · rw [List.mem_singleton] at hpx
      rw [hpx]

theorem findWindow_eq {t : Nat} :
    ∀ (xs : List (Nat × Nat)), List.Sorted keyLE xs →
      xs.Pairwise (fun a b => a.1 ≠ b.1) →
      ∀ p1 ∈ xs, ∀ p2 ∈ xs,
        p1.1 < t → (∀ q ∈ xs, q.1 < t → q.1 ≤ p1.1) →
        t ≤ p2.1 → (∀ q ∈ xs, t ≤ q.1 → p2.1 ≤ q.1) →
        (xs.headD (0, 0)).1 < t →
        findWindow t xs = some (p1, p2) := by
  intro xs
  induction xs with
  | nil => intro _ _ p1 hp1; cases hp1
  | cons a ys ih =>
    intro hs hd p1 hp1 p2 hp2 h1lt hmax h2ge hmin hhead
    have hh : a.1 < t := hhead
    cases ys with
    | nil =>
      rw [List.mem_singleton] at hp1 hp2
      rw [hp1] at h1lt
      rw [hp2] at h2ge
      omega
    | cons b rest =>
      have haleb : a.1 ≤ b.1 := List.rel_of_sorted_cons hs b (List.mem_cons_self b rest)
      have hane : a.1 ≠ b.1 := (List.pairwise_cons.mp hd).1 b (List.mem_cons_self b rest)
      by_cases hb : t ≤ b.1
      · have hgoal : findWindow t (a :: b :: rest) = some (a, b) := by
          simp only [findWindow]
          rw [if_pos ⟨le_of_lt hh, hb⟩]
        have hp1a : p1 = a := by
          rcases List.mem_cons.mp hp1 with h | h
          · exact h
          · exfalso
            have hble : b.1 ≤ p1.1 := by
              rcases List.mem_cons.mp h with h' | h'
              · rw [h']
              · exact List.rel_of_sorted_cons hs.of_cons p1 h'
            omega
        have hp2b : p2 = b := by
          rcases List.mem_cons.mp hp2 with h | h
          · rw [h] at h2ge; omega
          · rcases List.mem_cons.mp h with h' | h'
            · exact h'
            · have hble : b.1 ≤ p2.1 := List.rel_of_sorted_cons hs.of_cons p2 h'
              have hble2 : p2.1 ≤ b.1 :=
                hmin b (List.mem_cons_of_mem a (List.mem_cons_self b rest)) hb
              have hne : b.1 ≠ p2.1 :=
                (List.pairwise_cons.mp (List.Pairwise.of_cons hd)).1 p2 h'
              exact absurd (Nat.le_antisymm hble2 hble).symm hne
        rw [hp1a, hp2b, hgoal]
      · push_neg at hb
        have hstep : findWindow t (a :: b :: rest) = findWindow t (b :: rest) := by
          simp only [findWindow]
          rw [if_neg (by intro hcon; omega)]
        rw [hstep]
        have hp1' : p1 ∈ b :: rest := by
          rcases List.mem_cons.mp hp1 with h | h
          · exfalso
            have hba : b.1 ≤ p1.1 :=
              hmax b (List.mem_cons_of_mem a (List.mem_cons_self b rest)) hb
            rw [h] at hba
            omega
          · exact h
        have hp2' : p2 ∈ b :: rest := by
          rcases List.mem_cons.mp hp2 with h | h
          · rw [h] at h2ge; exfalso; omega
          · exact h
        exact ih hs.of_cons (List.Pairwise.of_cons hd) p1 hp1' p2 hp2'
          h1lt (fun q hq hqt => hmax q (List.mem_cons_of_mem a hq) hqt)
          h2ge (fun q hq hqt => hmin q (List.mem_cons_of_mem a hq) hqt)
          hb

-- ============================================================================
-- §23  dutyAt characterization
-- ============================================================================

theorem dutyAt_exact {sorted : List (Nat × Nat)}
    (hd : sorted.Pairwise (fun a b => a.1 ≠ b.1)) {p : Nat × Nat} (hp : p ∈ sorted)
    {t : Nat} (ht : p.1 = t) : dutyAt sorted t = p.2 := by
  have hsymm : Symmetric (fun a b : Nat × Nat => a.1 ≠ b.1) := fun x y h e => h e.symm
  have hfind : sorted.find? (fun q => q.1 == t) = some p := by
    refine find?_unique hp (by simp [ht]) ?_
    intro q hq hqt
    have hq1 : q.1 = t := by simpa using hqt
    by_contra hne
    exact (hd.forall hsymm hq hp hne) (hq1.trans ht.symm)
  simp only [dutyAt, hfind]

theorem dutyAt_interp {sorted : List (Nat × Nat)} (hs : List.Sorted keyLE sorted)
    (hd : sorted.Pairwise (fun a b => a.1 ≠ b.1)) {t : Nat}
    (hnoexact : ∀ q ∈ sorted, q.1 ≠ t)
    {p1 p2 : Nat × Nat} (hp1 : p1 ∈ sorted) (hp2 : p2 ∈ sorted)
    (h1 : p1.1 < t) (hmax : ∀ q ∈ sorted, q.1 < t → q.1 ≤ p1.1)
    (h2 : t < p2.1) (hmin : ∀ q ∈ sorted, t < q.1 → p2.1 ≤ q.1) :
    dutyAt sorted t = interpValue p1.1 p1.2 p2.1 p2.2 t := by
  have hex : sorted.find? (fun q => q.1 == t) = none := by
    rw [List.find?_eq_none]
    intro q hq
    simpa using hnoexact q hq
  have hlo := sorted_rfind_max sorted hs hd p1 hp1 h1 hmax
  have hhi := sorted_find_gt sorted hs hd p2 hp2 h2 hmin
  simp only [dutyAt, hex, hlo, hhi]

theorem dutyAt_below {sorted : List (Nat × Nat)} (hs : List.Sorted keyLE sorted)
    (hd : sorted.Pairwise (fun a b => a.1 ≠ b.1)) {t : Nat}
    (hall : ∀ q ∈ sorted, t < q.1)
    {p : Nat × Nat} (hp : p ∈ sorted) (hmin : ∀ q ∈ sorted, p.1 ≤ q.1) :
    dutyAt sorted t = p.2 := by
  have hex : sorted.find? (fun q => q.1 == t) = none := by
    rw [List.find?_eq_none]
    intro q hq
    have := hall q hq
    simp
    omega
  have hlo : sorted.reverse.find? (fun q => q.1 < t) = none := by
    rw [List.find?_eq_none]
    intro q hq
    have := hall q (List.mem_reverse.mp hq)
    simp
    omega
  have hhi := sorted_find_gt sorted hs hd p hp (hall p hp) (fun q hq _ => hmin q hq)
  simp only [dutyAt, hex, hlo, hhi]

theorem dutyAt_above {sorted : List (Nat × Nat)} (hs : List.Sorted keyLE sorted)
    (hd : sorted.Pairwise (fun a b => a.1 ≠ b.1)) {t : Nat}
    (hall : ∀ q ∈ sorted, q.1 < t)
    {p : Nat × Nat} (hp : p ∈ sorted) (hmax : ∀ q ∈ sorted, q.1 ≤ p.1) :
    dutyAt sorted t = p.2 := by
  have hex : sorted.find? (fun q => q.1 == t) = none := by
    rw [List.find?_eq_none]
    intro q hq
    have := hall q hq
    simp
    omega
  have hlo := sorted_rfind_max sorted hs hd p hp (hall p hp) (fun q hq _ => hmax q hq)
  have hhi : sorted.find? (fun q => t < q.1) = none := by
    rw [List.find?_eq_none]
    intro q hq
    have := hall q hq
    simp
    omega
  simp only [dutyAt, hex, hlo, hhi]

theorem dutyAt_bounds {sorted : List (Nat × Nat)} {L U temp : Nat}
    (hne : sorted ≠ []) (hbd : ∀ p ∈ sorted, L ≤ p.2 ∧ p.2 ≤ U) (hU : U ≤ 255) :
    L ≤ dutyAt sorted temp ∧ dutyAt sorted temp ≤ U := by
  cases hex : sorted.find? (fun p => p.1 == temp) with
  | some p =>
    simp only [dutyAt, hex]
    exact hbd p (List.mem_of_find?_eq_some hex)
  | none =>
    cases hlo : sorted.reverse.find? (fun p => p.1 < temp) with
    | some p1 =>
      have hp1 : p1 ∈ sorted := by
        have := List.mem_of_find?_eq_some hlo
        rwa [List.mem_reverse] at this
      cases hhi : sorted.find? (fun p => temp < p.1) with
      | some p2 =>
        have hp2 := List.mem_of_find?_eq_some hhi
        have h1 : p1.1 < temp := by
          have h := List.find?_some hlo
          simpa using h
        have h2 : temp < p2.1 := by
          have h := List.find?_some hhi
          simpa using h
        have hb1 := hbd p1 hp1
        have hb2 := hbd p2 hp2
        simp only [dutyAt, hex, hlo, hhi]
        exact interpValue_bounds h1 h2 hb1.1 hb1.2 hb2.1 hb2.2 hU
      | none =>
        simp only [dutyAt, hex, hlo, hhi]
        exact hbd p1 hp1
    | none =>
      cases hhi : sorted.find? (fun p => temp < p.1) with
      | some p2 =>
        simp only [dutyAt, hex, hlo, hhi]
        exact hbd p2 (List.mem_of_find?_eq_some hhi)
      | none =>
        exfalso
        obtain ⟨x, hx⟩ := List.exists_mem_of_ne_nil sorted hne
        have hxe := List.find?_eq_none.mp hex x hx
        have hxl := List.find?_eq_none.mp hlo x (List.mem_reverse.mpr hx)
        have hxg := List.find?_eq_none.mp hhi x hx
        simp at hxe hxl hxg
        omega

theorem interpolate_profile_ok {profile : List (Nat × Nat)} (hne : profile ≠ [])
    (hin : ∀ p ∈ profile, MIN_CURVE_TEMP ≤ p.1 ∧ p.1 ≤ CRITICAL_TEMPERATURE) :
    interpolate_profile profile =
      .ok ((List.range CURVE_POINTS).map
        (fun i => dutyAt (sortByTemp profile) (MIN_CURVE_TEMP + i))) := by
  simp only [interpolate_profile]
  rw [if_neg (by simpa using hne)]
  have hval : (sortByTemp profile).find?
      (fun p => p.1 < MIN_CURVE_TEMP ∨ CRITICAL_TEMPERATURE < p.1) = none := by
    rw [List.find?_eq_none]
    intro q hq
    have hqp : q ∈ profile := (List.perm_insertionSort keyLE profile).mem_iff.mp hq
    obtain ⟨ha, hb⟩ := hin q hqp
    have ha' : 20 ≤ q.1 := ha
    have hb' : q.1 ≤ 59 := hb
    simp only [decide_eq_true_eq]
    show ¬(q.1 < 20 ∨ 59 < q.1)
    omega
  rw [hval]

-- ============================================================================
-- §24  Claim theorems: interpolate_profile (C4, C6)
-- ============================================================================

/-- C4 (amended): `interpolate_profile` rejects the empty profile with
`InvalidProfile` and any out-of-range temperature with `InvalidTemperature`;
for valid profiles (with pairwise distinct temperatures, so that "the
nearest lower / higher point" is well defined) it returns 40 duties where
each integer temperature `20 + i` takes an exact point's duty when one
matches, the linear interpolation between the nearest lower and nearest
higher points computed in f32 single-precision arithmetic and rounded
otherwise (`interpValue`, which at half-way boundary ratios can differ by
one from rounding the exact rational interpolation — see the
counterexample), the lowest point's duty below the lowest point, and the
highest point's duty above the highest point; on
`[(20, 25), (40, 50), (59, 100)]` entries 0, 20 and 39 are 25, 50 and 100. -/
theorem interpolate_profile_spec :
    (interpolate_profile [] = .error (.InvalidProfile "Profile cannot be empty")) ∧
    (∀ (profile : List (Nat × Nat)) (p : Nat × Nat), p ∈ profile →
      (p.1 < MIN_CURVE_TEMP ∨ CRITICAL_TEMPERATURE < p.1) →
      ∃ t, interpolate_profile profile = .error (.InvalidTemperature t) ∧
        (t < MIN_CURVE_TEMP ∨ CRITICAL_TEMPERATURE < t)) ∧
    (∀ profile : List (Nat × Nat), profile ≠ [] →
      (∀ p ∈ profile, MIN_CURVE_TEMP ≤ p.1 ∧ p.1 ≤ CRITICAL_TEMPERATURE) →
      profile.Pairwise (fun a b => a.1 ≠ b.1) →
      ∃ duties, interpolate_profile profile = .ok duties ∧
        duties.length = CURVE_POINTS ∧
        (∀ i < CURVE_POINTS, ∀ p ∈ profile, p.1 = MIN_CURVE_TEMP + i →
          duties.getD i 0 = p.2) ∧
        (∀ i < CURVE_POINTS, (∀ q ∈ profile, q.1 ≠ MIN_CURVE_TEMP + i) →
          ∀ p1 ∈ profile, ∀ p2 ∈ profile,
            p1.1 < MIN_CURVE_TEMP + i →
            (∀ q ∈ profile, q.1 < MIN_CURVE_TEMP + i → q.1 ≤ p1.1) →
            MIN_CURVE_TEMP + i < p2.1 →
            (∀ q ∈ profile, MIN_CURVE_TEMP + i < q.1 → p2.1 ≤ q.1) →
            duties.getD i 0 = interpValue p1.1 p1.2 p2.1 p2.2 (MIN_CURVE_TEMP + i)) ∧
        (∀ i < CURVE_POINTS, (∀ q ∈ profile, MIN_CURVE_TEMP + i < q.1) →
          ∀ p ∈ profile, (∀ q ∈ profile, p.1 ≤ q.1) → duties.getD i 0 = p.2) ∧
        (∀ i < CURVE_POINTS, (∀ q ∈ profile, q.1 < MIN_CURVE_TEMP + i) →
          ∀ p ∈ profile, (∀ q ∈ profile, q.1 ≤ p.1) → duties.getD i 0 = p.2)) ∧
    (∃ duties, interpolate_profile [(20, 25), (40, 50), (59, 100)] = .ok duties ∧
      duties.getD 0 0 = 25 ∧ duties.getD 20 0 = 50 ∧ duties.getD 39 0 = 100) := by
  refine ⟨rfl, ?_, ?_, ?_⟩
  · -- out-of-range temperature
    intro profile p hp hout
    simp only [interpolate_profile]
    rw [if_neg (by simpa using List.ne_nil_of_mem hp)]
    cases hf : (sortByTemp profile).find?
        (fun q => q.1 < MIN_CURVE_TEMP ∨ CRITICAL_TEMPERATURE < q.1) with
    | none =>
      exfalso
      have := List.find?_eq_none.mp hf p ((List.perm_insertionSort keyLE profile).mem_iff.mpr hp)
      simp only [decide_eq_true_eq] at this
      exact this hout
    | some q =>
      have hq := List.find?_some hf
      simp only [decide_eq_true_eq] at hq
      exact ⟨q.1, rfl, hq⟩
  · -- valid profiles: full characterization per integer temperature
    intro profile hne hin hdist
    have hsymm : Symmetric (fun a b : Nat × Nat => a.1 ≠ b.1) := fun x y h e => h e.symm
    have hperm := List.perm_insertionSort keyLE profile
    have hsort : List.Sorted keyLE (sortByTemp profile) :=
      List.sorted_insertionSort keyLE profile
    have hd' : (sortByTemp profile).Pairwise (fun a b => a.1 ≠ b.1) :=
      (hperm.pairwise_iff @hsymm).mpr hdist
    refine ⟨_, interpolate_profile_ok hne hin, by simp, ?_, ?_, ?_, ?_⟩
    · intro i hi p hp hpt
      rw [getD_range_map _ 0 hi]
      exact dutyAt_exact hd' (hperm.mem_iff.mpr hp) hpt
    · intro i hi hnoex p1 hp1 p2 hp2 hl hmax hg hmin
      rw [getD_range_map _ 0 hi]
      exact dutyAt_interp hsort hd' (fun q hq => hnoex q (hperm.mem_iff.mp hq))
        (hperm.mem_iff.mpr hp1) (hperm.mem_iff.mpr hp2) hl
        (fun q hq => hmax q (hperm.mem_iff.mp hq)) hg
        (fun q hq => hmin q (hperm.mem_iff.mp hq))
    · intro i hi hall p hp hmin
      rw [getD_range_map _ 0 hi]
      exact dutyAt_below hsort hd' (fun q hq => hall q (hperm.mem_iff.mp hq))
        (hperm.mem_iff.mpr hp) (fun q hq => hmin q (hperm.mem_iff.mp hq))
    · intro i hi hall p hp hmax
      rw [getD_range_map _ 0 hi]
      exact dutyAt_above hsort hd' (fun q hq => hall q (hperm.mem_iff.mp hq))
        (hperm.mem_iff.mpr hp) (fun q hq => hmax q (hperm.mem_iff.mp hq))
  · -- the concrete three-point example
    refine ⟨_, interpolate_profile_ok (by decide) (by decide), ?_, ?_, ?_⟩
    · decide
    · decide
    · decide

/-- C4 (witness): the exact-match clause applied to the concrete example at
temperature 20 (index 0). -/
theorem interpolate_profile_spec_witness :
    ∃ duties, interpolate_profile [(20, 25), (40, 50), (59, 100)] = .ok duties ∧
      duties.getD 0 0 = 25 := by
  obtain ⟨duties, hok, -, hexact, -, -, -⟩ :=
    interpolate_profile_spec.2.2.1 [(20, 25), (40, 50), (59, 100)]
      (by decide) (by decide) (by decide)
  exact ⟨duties, hok, hexact 0 (by decide) (20, 25) (by decide) (by decide)⟩

/-- C6: for every valid sparse profile, every one of the 40 interpolated
duties lies between any common lower bound `L` and upper bound `U` of the
input duties (in particular between their minimum and maximum): f32
round-off and final rounding included, interpolation never leaves the
convex hull of the given duties. -/
theorem interpolate_profile_hull (profile : List (Nat × Nat)) (L U : Nat)
    (hne : profile ≠ [])
    (hin : ∀ p ∈ profile, MIN_CURVE_TEMP ≤ p.1 ∧ p.1 ≤ CRITICAL_TEMPERATURE)
    (hbd : ∀ p ∈ profile, L ≤ p.2 ∧ p.2 ≤ U) (hU : U ≤ 255) :
    ∃ duties, interpolate_profile profile = .ok duties ∧
      duties.length = CURVE_POINTS ∧ ∀ d ∈ duties, L ≤ d ∧ d ≤ U := by
  refine ⟨_, interpolate_profile_ok hne hin, by simp, ?_⟩
  intro d hd
  obtain ⟨i, hi, rfl⟩ := List.mem_map.mp hd
  apply dutyAt_bounds
  · intro hnil
    have hlen := (List.perm_insertionSort keyLE profile).length_eq
    have hnil' : List.insertionSort keyLE profile = [] := hnil
    rw [hnil'] at hlen
    exact hne (List.eq_nil_of_length_eq_zero hlen.symm)
  · intro p hp
    exact hbd p ((List.perm_insertionSort keyLE profile).mem_iff.mp hp)
  · exact hU

/-- C6 (witness): the hull bound applied to the concrete three-point profile
with its own duty extremes 25 and 100. -/
theorem interpolate_profile_hull_witness :
    ∃ duties, interpolate_profile [(20, 25), (40, 50), (59, 100)] = .ok duties ∧
      duties.length = CURVE_POINTS ∧ ∀ d ∈ duties, 25 ≤ d ∧ d ≤ 100 :=
  interpolate_profile_hull [(20, 25), (40, 50), (59, 100)] 25 100
    (by decide) (by decide) (by decide) (by decide)

-- ============================================================================
-- §25  head/last helpers and claim theorem C7
-- ============================================================================

theorem headD_mem {xs : List (Nat × Nat)} (h : xs ≠ []) : xs.headD (0, 0) ∈ xs := by
  cases xs with
  | nil => exact absurd rfl h
  | cons x ys => exact List.mem_cons_self x ys

theorem sorted_headD_min {xs : List (Nat × Nat)} (hs : List.Sorted keyLE xs) :
    ∀ q ∈ xs, (xs.headD (0, 0)).1 ≤ q.1 := by
  cases xs with
  | nil => intro q hq; cases hq
  | cons x ys =>
    intro q hq
    rcases List.mem_cons.mp hq with h | h
    · subst h; exact le_refl _
    · exact List.rel_of_sorted_cons hs q h

theorem getLastD_mem {xs : List (Nat × Nat)} (h : xs ≠ []) : xs.getLastD (0, 0) ∈ xs := by
  induction xs using List.reverseRecOn with
  | nil => exact absurd rfl h
  | append_singleton ys x _ =>
    rw [List.getLastD_concat]
    exact List.mem_append.mpr (Or.inr (List.mem_singleton_self x))

theorem sorted_getLastD_max {xs : List (Nat × Nat)} (hs : List.Sorted keyLE xs) :
    ∀ q ∈ xs, q.1 ≤ (xs.getLastD (0, 0)).1 := by
  induction xs using List.reverseRecOn with
  | nil => intro q hq; cases hq
  | append_singleton ys x _ =>
    intro q hq
    rw [List.getLastD_concat]
    obtain ⟨-, -, hrel⟩ := List.pairwise_append.mp hs
    rcases List.mem_append.mp hq with h | h
    · exact hrel q h x (List.mem_singleton_self x)
    · rw [List.mem_singleton] at h; subst h; exact le_refl _

theorem eq_of_temp_eq {xs : List (Nat × Nat)}
    (hd : xs.Pairwise (fun a b => a.1 ≠ b.1)) {a b : Nat × Nat}
    (ha : a ∈ xs) (hb : b ∈ xs) (h : a.1 = b.1) : a = b := by
  have hsymm : Symmetric (fun a b : Nat × Nat => a.1 ≠ b.1) := fun x y h e => h e.symm
  by_contra hne
  exact (hd.forall hsymm ha hb hne) h

theorem sortByTemp_ne_nil {curve : List (Nat × Nat)} (h : curve ≠ []) :
    sortByTemp curve ≠ [] := by
  intro hnil
  have hlen := (List.perm_insertionSort keyLE curve).length_eq
  have hnil' : List.insertionSort keyLE curve = [] := hnil
  rw [hnil'] at hlen
  exact h (List.eq_nil_of_length_eq_zero hlen.symm)

theorem u8OfRound_eq_of (q : ℚ) (n : Nat) (h : q + 1 / 2 = ((n : ℤ) : ℚ))
    (h255 : n ≤ 255) : u8OfRound q = n := by
  unfold u8OfRound
  rw [h, Int.floor_intCast]
  simp [h255]

theorem fl32_half : fl32 ((1 : ℚ) / 2) = 1 / 2 := by
  have h := fl32_eval (q := (1 : ℚ) / 2) (e := -1) (n := 8388608)
    (by norm_num) (by norm_num) (by norm_num) (by norm_num) (by norm_num)
  rw [h]
  norm_num

theorem fl32_c25 : fl32 (25 : ℚ) = 25 := by
  have h := fl32_intCast' (n := 25) (by norm_num)
  push_cast at h
  exact h

theorem fl32_25half : fl32 ((25 : ℚ) / 2) = 25 / 2 := by
  have h := fl32_eval (q := (25 : ℚ) / 2) (e := 3) (n := 13107200)
    (by norm_num) (by norm_num) (by norm_num) (by norm_num) (by norm_num)
  rw [h]
  norm_num

theorem fl32_75half : fl32 ((75 : ℚ) / 2) = 75 / 2 := by
  have h := fl32_eval (q := (75 : ℚ) / 2) (e := 5) (n := 9830400)
    (by norm_num) (by norm_num) (by norm_num) (by norm_num) (by norm_num)
  rw [h]
  norm_num

theorem interpValue_concrete_38 : interpValue 20 25 40 50 30 = 38 := by
  unfold interpValue
  rw [show (((30 : ℕ)) : ℚ) - (((20 : ℕ)) : ℚ) = 10 from by norm_num,
    show (((40 : ℕ)) : ℚ) - (((20 : ℕ)) : ℚ) = 20 from by norm_num,
    show (((50 : ℕ)) : ℚ) - (((25 : ℕ)) : ℚ) = 25 from by norm_num,
    show (10 : ℚ) / 20 = 1 / 2 from by norm_num,
    fl32_half, fl32_c25,
    show (1 : ℚ) / 2 * 25 = 25 / 2 from by norm_num,
    fl32_25half,
    show (((25 : ℕ)) : ℚ) + (25 : ℚ) / 2 = 75 / 2 from by norm_num,
    fl32_75half]
  exact u8OfRound_eq_of _ 38 (by norm_num) (by norm_num)

/-- C7 (amended): `interpolate_duty` clamps to the minimum point's duty at
or below the curve's minimum temperature, to the maximum point's duty at or
above the maximum, returns the linear interpolation between the bracketing
points (the nearest point below, and the nearest point at-or-above, the
query temperature) computed in f32 single-precision arithmetic and rounded
(`interpValue`, which at half-way boundary ratios can differ by one from
rounding the exact rational interpolation — see the counterexample) strictly
in between, and yields the fixed fallback 50 on the empty curve;
`interpolate_duty [(20,25),(40,50),(60,100)] 30 = 38`. -/
theorem interpolate_duty_spec :
    (∀ temp, interpolate_duty [] temp = 50) ∧
    (∀ (curve : List (Nat × Nat)) (temp : Nat),
      curve.Pairwise (fun a b => a.1 ≠ b.1) →
      (∀ p ∈ curve, p.2 ≤ 255) →
      (∀ p ∈ curve, (∀ q ∈ curve, p.1 ≤ q.1) → temp ≤ p.1 →
        interpolate_duty curve temp = p.2) ∧
      (∀ p ∈ curve, (∀ q ∈ curve, q.1 ≤ p.1) → p.1 ≤ temp →
        interpolate_duty curve temp = p.2) ∧
      (∀ p1 ∈ curve, ∀ p2 ∈ curve,
        p1.1 < temp → (∀ q ∈ curve, q.1 < temp → q.1 ≤ p1.1) →
        temp ≤ p2.1 → (∀ q ∈ curve, temp ≤ q.1 → p2.1 ≤ q.1) →
        interpolate_duty curve temp = interpValue p1.1 p1.2 p2.1 p2.2 temp)) ∧
    interpolate_duty [(20, 25), (40, 50), (60, 100)] 30 = 38 := by
  have hsymm : Symmetric (fun a b : Nat × Nat => a.1 ≠ b.1) := fun x y h e => h e.symm
  have main : ∀ (curve : List (Nat × Nat)) (temp : Nat),
      curve.Pairwise (fun a b => a.1 ≠ b.1) →
      (∀ p ∈ curve, p.2 ≤ 255) →
      (∀ p ∈ curve, (∀ q ∈ curve, p.1 ≤ q.1) → temp ≤ p.1 →
        interpolate_duty curve temp = p.2) ∧
      (∀ p ∈ curve, (∀ q ∈ curve, q.1 ≤ p.1) → p.1 ≤ temp →
        interpolate_duty curve temp = p.2) ∧
      (∀ p1 ∈ curve, ∀ p2 ∈ curve,
        p1.1 < temp → (∀ q ∈ curve, q.1 < temp → q.1 ≤ p1.1) →
        temp ≤ p2.1 → (∀ q ∈ curve, temp ≤ q.1 → p2.1 ≤ q.1) →
        interpolate_duty curve temp = interpValue p1.1 p1.2 p2.1 p2.2 temp) := by
    intro curve temp hdist h255
    by_cases hcne : curve = []
    · subst hcne
      exact ⟨fun p hp => absurd hp (List.not_mem_nil p),
        fun p hp => absurd hp (List.not_mem_nil p),
        fun p1 hp1 => absurd hp1 (List.not_mem_nil p1)⟩
    · have hperm := List.perm_insertionSort keyLE curve
      have hsort : List.Sorted keyLE (sortByTemp curve) :=
        List.sorted_insertionSort keyLE curve
      have hd' : (sortByTemp curve).Pairwise (fun a b => a.1 ≠ b.1) :=
        (hperm.pairwise_iff @hsymm).mpr hdist
      have hEmptyFalse : ¬(curve.isEmpty = true) := by simpa using hcne
      have hsne : sortByTemp curve ≠ [] := sortByTemp_ne_nil hcne
      refine ⟨?_, ?_, ?_⟩
      · -- clamp at or below the minimum
        intro p hp hminp htemp
        have hphead : (sortByTemp curve).headD (0, 0) = p :=
          sorted_head_eq hsort hd' (hperm.mem_iff.mpr hp)
            (fun q hq => hminp q (hperm.mem_iff.mp hq))
        simp only [interpolate_duty]
        rw [if_neg hEmptyFalse, hphead, if_pos htemp]
      · -- clamp at or above the maximum
        intro p hp hmaxp htemp
        have hlast : (sortByTemp curve).getLastD (0, 0) = p :=
          sorted_getLast_eq hsort hd' (hperm.mem_iff.mpr hp)
            (fun q hq => hmaxp q (hperm.mem_iff.mp hq))
        simp only [interpolate_duty]
        rw [if_neg hEmptyFalse]
        by_cases hh : temp ≤ ((sortByTemp curve).headD (0, 0)).1
        · rw [if_pos hh]
          have hhm := headD_mem hsne
          have hble : ((sortByTemp curve).headD (0, 0)).1 ≤ p.1 :=
            sorted_headD_min hsort p (hperm.mem_iff.mpr hp)
          have heq : (sortByTemp curve).headD (0, 0) = p :=
            eq_of_temp_eq hd' hhm (hperm.mem_iff.mpr hp) (by omega)
          rw [heq]
        · rw [if_neg hh, hlast, if_pos htemp]
      · -- strictly between the extremes
        intro p1 hp1 p2 hp2 h1lt hmax h2ge hmin
        have hp1s := hperm.mem_iff.mpr hp1
        have hp2s := hperm.mem_iff.mpr hp2
        have hmax' : ∀ q ∈ sortByTemp curve, q.1 < temp → q.1 ≤ p1.1 :=
          fun q hq => hmax q (hperm.mem_iff.mp hq)
        have hmin' : ∀ q ∈ sortByTemp curve, temp ≤ q.1 → p2.1 ≤ q.1 :=
          fun q hq => hmin q (hperm.mem_iff.mp hq)
        have hheadlt : ((sortByTemp curve).headD (0, 0)).1 < temp := by
          have := sorted_headD_min hsort p1 hp1s
          omega
        simp only [interpolate_duty]
        rw [if_neg hEmptyFalse, if_neg (by omega)]
        by_cases hl : ((sortByTemp curve).getLastD (0, 0)).1 ≤ temp
        · rw [if_pos hl]
          have hlm := getLastD_mem hsne
          have hlmax := sorted_getLastD_max hsort p2 hp2s
          have htemp2 : temp = p2.1 := by omega
          have heq : (sortByTemp curve).getLastD (0, 0) = p2 :=
            eq_of_temp_eq hd' hlm hp2s (by omega)
          rw [heq, htemp2]
          exact (interpValue_at_upper (by omega) (h255 p1 hp1) (h255 p2 hp2)).symm
        · rw [if_neg hl,
            findWindow_eq (sortByTemp curve) hsort hd' p1 hp1s p2 hp2s h1lt hmax' h2ge hmin'
              hheadlt]
  refine ⟨fun temp => rfl, main, ?_⟩
  have h3 := ((main [(20, 25), (40, 50), (60, 100)] 30 (by decide) (by decide)).2.2)
    (20, 25) (by decide) (40, 50) (by decide) (by decide)
    (by intro q hq; fin_cases hq <;> simp) (by decide)
    (by intro q hq; fin_cases hq <;> simp)
  rw [h3]
  exact interpValue_concrete_38

/-- C7 (witness): the interpolation clause applied at temperature 30 on the
concrete curve, giving the rounded midpoint 38. -/
theorem interpolate_duty_spec_witness :
    interpolate_duty [(20, 25), (40, 50), (60, 100)] 30 =
      interpValue 20 25 40 50 30 :=
  ((interpolate_duty_spec.2.1 [(20, 25), (40, 50), (60, 100)] 30
      (by decide) (by decide)).2.2)
    (20, 25) (by decide) (40, 50) (by decide) (by decide)
    (by intro q hq; fin_cases hq <;> simp) (by decide)
    (by intro q hq; fin_cases hq <;> simp)

-- ============================================================================
-- §26  A boundary input where f32 rounding and exact rounding differ
-- ============================================================================

theorem fl32_c54 : fl32 (54 : ℚ) = 54 := by
  have h := fl32_intCast' (n := 54) (by norm_num)
  push_cast at h
  exact h

theorem fl32_712 : fl32 ((7 : ℚ) / 12) = 9786709 / 16777216 := by
  have h := fl32_eval (q := (7 : ℚ) / 12) (e := -1) (n := 9786709)
    (by norm_num) (by norm_num) (by norm_num) (by norm_num) (by norm_num)
  rw [h]
  norm_num

theorem fl32_boundary_prod :
    fl32 ((9786709 : ℚ) / 16777216 * 54) = 16515071 / 524288 := by
  have h := fl32_eval (q := (9786709 : ℚ) / 16777216 * 54) (e := 4) (n := 16515071)
    (by norm_num) (by norm_num) (by norm_num) (by norm_num) (by norm_num)
  rw [h]
  norm_num

theorem fl32_boundary_sum :
    fl32 ((16515071 : ℚ) / 524288) = 16515071 / 524288 := by
  have h := fl32_eval (q := (16515071 : ℚ) / 524288) (e := 4) (n := 16515071)
    (by norm_num) (by norm_num) (by norm_num) (by norm_num) (by norm_num)
  rw [h]
  norm_num

/-- Whenever the interpolation ratio is exactly 7/12 on a 0→54 duty span,
the f32 computation lands just below 31.5 and rounds down to 31, while the
exact rational value 31.5 would round up to 32. -/
theorem interpValue_ratio712 {t1 t2 t : Nat}
    (hr : ((t : ℚ) - (t1 : ℚ)) / ((t2 : ℚ) - (t1 : ℚ)) = 7 / 12) :
    interpValue t1 0 t2 54 t = 31 := by
  unfold interpValue
  rw [hr, fl32_712,
    show (((54 : ℕ)) : ℚ) - (((0 : ℕ)) : ℚ) = 54 from by norm_num,
    fl32_c54, fl32_boundary_prod,
    show (((0 : ℕ)) : ℚ) + (16515071 : ℚ) / 524288 = 16515071 / 524288 from by
      norm_num,
    fl32_boundary_sum]
  unfold u8OfRound
  rw [show (16515071 : ℚ) / 524288 + 1 / 2 = 16777215 / 524288 from by norm_num]
  rw [show ⌊(16777215 : ℚ) / 524288⌋ = (31 : ℤ) from by
    rw [Int.floor_eq_iff]
    constructor
    · norm_num
    · norm_num]
  rfl

theorem interpValue_20_0_32_54_27 : interpValue 20 0 32 54 27 = 31 :=
  interpValue_ratio712 (by norm_num)

theorem interpValue_0_0_12_54_7 : interpValue 0 0 12 54 7 = 31 :=
  interpValue_ratio712 (by norm_num)

/-- C4 (counterexample): on the valid profile `[(20, 0), (32, 54)]` the
program's entry for temperature 27 (index 7) is 31, because the f32
product `fl32 (7/12) * 54` falls just below 31.5, while rounding the exact
rational interpolation `d1 + (t - t1) / (t2 - t1) * (d2 - d1)` gives 32. -/
theorem interpolate_profile_f32_cex :
    ((interpolate_profile [(20, 0), (32, 54)]).toOption.getD []).getD 7 0 = 31 ∧
    ⌊(0 : ℚ) + ((27 : ℚ) - 20) / ((32 : ℚ) - 20) * ((54 : ℚ) - 0) + 1 / 2⌋ = 32 := by
  constructor
  · have hok : interpolate_profile [(20, 0), (32, 54)] =
        .ok ((List.range CURVE_POINTS).map
          (fun i => dutyAt (sortByTemp [(20, 0), (32, 54)]) (MIN_CURVE_TEMP + i))) :=
      interpolate_profile_ok (by decide) (by decide)
    rw [hok]
    show ((List.range CURVE_POINTS).map
      (fun i => dutyAt (sortByTemp [(20, 0), (32, 54)]) (MIN_CURVE_TEMP + i))).getD 7 0 = 31
    rw [getD_range_map _ 0 (by decide)]
    show interpValue 20 0 32 54 27 = 31
    exact interpValue_20_0_32_54_27
  · rw [show (0 : ℚ) + ((27 : ℚ) - 20) / ((32 : ℚ) - 20) * ((54 : ℚ) - 0) + 1 / 2
        = ((32 : ℤ) : ℚ) from by norm_num]
    exact Int.floor_intCast 32

/-- C7 (counterexample): on the curve `[(0, 0), (12, 54)]` at temperature 7
the program returns 31, because the f32 product `fl32 (7/12) * 54` falls
just below 31.5, while rounding the exact rational interpolation gives 32. -/
theorem interpolate_duty_f32_cex :
    interpolate_duty [(0, 0), (12, 54)] 7 = 31 ∧
    ⌊(0 : ℚ) + ((7 : ℚ) - 0) / ((12 : ℚ) - 0) * ((54 : ℚ) - 0) + 1 / 2⌋ = 32 := by
  constructor
  · show interpValue 0 0 12 54 7 = 31
    exact interpValue_0_0_12_54_7
  · rw [show (0 : ℚ) + ((7 : ℚ) - 0) / ((12 : ℚ) - 0) * ((54 : ℚ) - 0) + 1 / 2
        = ((32 : ℤ) : ℚ) from by norm_num]
    exact Int.floor_intCast 32
